import Mathlib

/-! # randadd1.c : a random-length list of random numbers and its total

A shallow embedding of `src/randadd1.c` (`print_list`, `calc_total`,
`build_list`, `main`) together with the properties of the specification that
are checked against it.

Modelling conventions

* The C heap is a finite map from addresses to `value_t` cells; address `0`
  is `NULL`. `malloc` and `random` are environment oracles held in the
  `World`, the value of `rand()` is an argument of `main`, and `printf`
  appends one event per call to the output trace.
* A call of `malloc` returns a block or `NULL` and, in both cases, may leave
  any value in `errno` or leave it alone.
* Signed arithmetic on `int` and `long int` wraps in two's complement at the
  width given by the `Target` (ISO C leaves signed overflow undefined; wrap
  around is what the usual compilers emit for these loops).
* Dereferencing `NULL` or an unallocated address, and freeing an unallocated
  address, is `Outcome.fault`. Loops that walk the heap take fuel and give
  `Outcome.timeout` when it runs out.
-/

namespace Randadd1

/-! ## Constants of the program -/

/-- The macro `MAX_OBJECTS`. -/
def MAX_OBJECTS : Nat := 19

/-- The macro `MAX_RANDOM`. -/
def MAX_RANDOM : Int := 50

/-- The macro `SUCCESS`. -/
def SUCCESS : Int := 0

/-- The macro `GENERIC_ERROR`. -/
def GENERIC_ERROR : Int := -1

/-- The macro `BAD_POINTER`. -/
def BAD_POINTER : Int := -3

/-- The macro `INVALID_NUMBER`. -/
def INVALID_NUMBER : Int := -4

/-! ## Machine integers -/

/-- Widths of `int` and `long int` on the platform the program is compiled
for. ISO C guarantees at least 16 and 32 bits. -/
structure Target where
  int_bits : Nat
  long_bits : Nat
  int_ok : 16 ≤ int_bits
  long_ok : 32 ≤ long_bits

/-- The usual 64-bit Unix data model: 32-bit `int`, 64-bit `long int`. -/
def LP64 : Target := ⟨32, 64, by decide, by decide⟩

/-- The data model with 32-bit `int` and 32-bit `long int`. -/
def ILP32 : Target := ⟨32, 32, by decide, by decide⟩

/-- Two's-complement reduction of an integer to a signed type of `bits` bits. -/
def wrap_signed (bits : Nat) (x : Int) : Int :=
  let r := x % (2 : Int) ^ bits
  if r < (2 : Int) ^ bits / 2 then r else r - (2 : Int) ^ bits

/-- Conversion of an integer to an unsigned type of `bits` bits. -/
def to_unsigned (bits : Nat) (x : Int) : Nat :=
  (x % (2 : Int) ^ bits).toNat

/-- The values a signed type of `bits` bits can hold. -/
def in_signed_range (bits : Nat) (x : Int) : Prop :=
  -((2 : Int) ^ bits / 2) ≤ x ∧ x < (2 : Int) ^ bits / 2

instance (bits : Nat) (x : Int) : Decidable (in_signed_range bits x) := by
  unfold in_signed_range; infer_instance

/-! ## Heap and list nodes -/

/-- An address; `0` is the null pointer. -/
abbrev Ptr := Nat

/-- The null pointer. -/
def NULL : Ptr := 0

/-- The C structure `struct value`: the random number and the link. -/
structure value_t where
  val : Int
  next : Ptr
  deriving DecidableEq, Repr

/-- The allocated cells, by address. -/
abbrev Heap := Ptr → Option value_t

/-- The heap with no allocated cell. -/
def Heap.empty : Heap := fun _ => none

/-- The heap `h` with the cell at `p` replaced by `c`. -/
def Heap.set (h : Heap) (p : Ptr) (c : Option value_t) : Heap :=
  fun q => if q = p then c else h q

/-- Reading through a pointer: nothing at `NULL` or at an unallocated address. -/
def deref (h : Heap) (p : Ptr) : Option value_t :=
  if p = NULL then none else h p

/-- Result of running a piece of the program. -/
inductive Outcome (α : Type) where
  | ok (a : α)
  | fault
  | timeout
  deriving DecidableEq, Repr

/-- Sequencing of two pieces of the program. -/
def Outcome.bind {α β : Type} (x : Outcome α) (f : α → Outcome β) : Outcome β :=
  match x with
  | .ok a => f a
  | .fault => .fault
  | .timeout => .timeout

/-- The assignment `p->val = v`. -/
def store_val (h : Heap) (p : Ptr) (v : Int) : Outcome Heap :=
  match deref h p with
  | none => .fault
  | some c => .ok (h.set p (some { c with val := v }))

/-- The assignment `p->next = q`. -/
def store_next (h : Heap) (p : Ptr) (q : Ptr) : Outcome Heap :=
  match deref h p with
  | none => .fault
  | some c => .ok (h.set p (some { c with next := q }))

/-- The null-terminated list starting at `p` holds exactly the values `vals`,
in order. The empty list is the null pointer. -/
def isList (h : Heap) : Ptr → List Int → Prop
  | p, [] => p = NULL
  | p, v :: vs =>
    match deref h p with
    | none => False
    | some c => c.val = v ∧ isList h c.next vs

/-- Decision procedure for `isList`, by recursion on the values. -/
def isList.decide (h : Heap) : (p : Ptr) → (vals : List Int) → Decidable (isList h p vals)
  | p, [] => by unfold isList; infer_instance
  | p, v :: vs => by
    unfold isList
    cases hc : deref h p with
    | none => exact isFalse (fun hf => hf)
    | some c =>
      have := isList.decide h c.next vs
      show Decidable (c.val = v ∧ isList h c.next vs)
      infer_instance

instance (h : Heap) (p : Ptr) (vals : List Int) : Decidable (isList h p vals) :=
  isList.decide h p vals

/-! ## Environment: output, allocator, random numbers -/

/-- One call of `printf` or `perror`, with the values of its arguments. -/
inductive Out where
  /-- A call with a constant format string. -/
  | text (s : String)
  /-- The call `printf("\nLength of list = %d\n\n", num)`. -/
  | length_line (num : Nat)
  /-- The call `printf("Number %2d = %2ld\n", number, start->val)`. -/
  | number_line (number : Int) (val : Int)
  /-- The call `printf("\nTotal = %ld\n\n", total)`. -/
  | total_line (total : Int)
  /-- The call `printf("Error: unable to allocate memory at structure #%d\n", num)`. -/
  | struct_error (num : Nat)
  /-- The call `perror(s)` with the current `errno`. -/
  | perror (s : String) (errno : Int)
  deriving DecidableEq, Repr

/-- What one call of `malloc(sizeof(value_t))` does: hand out a block whose
contents are indeterminate (`init`), or return `NULL`. Either way the call
may leave a value in `errno`: `err` is that value, `none` when `errno` is
not touched. -/
inductive MallocResult where
  | block (init : value_t) (err : Option Int)
  | fails (err : Option Int)
  deriving DecidableEq, Repr

/-- Whether the call returned a block. -/
def MallocResult.succeeds : MallocResult → Bool
  | .block _ _ => true
  | .fails _ => false

/-- The value the call leaves in `errno`, `none` when it does not touch it. -/
def MallocResult.err : MallocResult → Option Int
  | .block _ err => err
  | .fails err => err

/-- Whether the loop of `build_list` takes the call for a success: a block
is returned and `errno`, set to 0 before the call, is still 0 after it. -/
def MallocResult.passes : MallocResult → Bool
  | .block _ err => decide (err.getD SUCCESS = SUCCESS)
  | .fails _ => false

/-- State of the process and its environment. -/
structure World where
  /-- The allocated cells. -/
  heap : Heap
  /-- The number of blocks handed out so far; the next block is at `brk + 1`. -/
  brk : Nat
  /-- What the k-th call of `malloc` does. -/
  mallocs : Nat → MallocResult
  /-- The number of calls of `malloc` so far. -/
  nmalloc : Nat
  /-- The k-th value returned by `random()`. -/
  randoms : Nat → Int
  /-- The number of calls of `random()` so far. -/
  nrandom : Nat
  /-- The variable `errno`. -/
  errno : Int
  /-- The calls of `printf` and `perror` so far, oldest first. -/
  out : List Out
  /-- The addresses passed to `free` so far, oldest first. -/
  frees : List Ptr

/-- One call of `printf` or `perror`. -/
def printf (w : World) (o : Out) : World :=
  { w with out := w.out ++ [o] }

/-- One call of `malloc(sizeof(value_t))`: the pointer returned and the state after. -/
def malloc (w : World) : Ptr × World :=
  match w.mallocs w.nmalloc with
  | .block init err =>
    (w.brk + 1,
     { w with heap := w.heap.set (w.brk + 1) (some init), brk := w.brk + 1,
              errno := err.getD w.errno, nmalloc := w.nmalloc + 1 })
  | .fails err =>
    (NULL, { w with errno := err.getD w.errno, nmalloc := w.nmalloc + 1 })

/-- One call of `random()`: the value returned and the state after. -/
def random (w : World) : Int × World :=
  (w.randoms w.nrandom, { w with nrandom := w.nrandom + 1 })

/-- One call of `free(p)`. -/
def free (w : World) (p : Ptr) : Outcome World :=
  if p = NULL then .ok w
  else match w.heap p with
    | none => .fault
    | some _ => .ok { w with heap := w.heap.set p none, frees := w.frees ++ [p] }

/-! ## The functions of `randadd1.c` -/

/-- The body of the `do ... while (start != NULL)` loop of `print_list` and
its repetition: `number` is the label of the node at `start`. -/
def print_list_loop (T : Target) : Nat → Ptr → Int → World → Outcome World
  | 0, _, _, _ => .timeout
  | fuel + 1, start, number, w =>
    match deref w.heap start with
    | none => .fault
    | some node =>
      let w := printf w (Out.number_line number node.val)
      let start := node.next
      let number := wrap_signed T.int_bits (number + 1)
      if start ≠ NULL then print_list_loop T fuel start number w else .ok w

/-- The function `print_list(start)`: the result code and the state after. -/
def print_list (T : Target) (fuel : Nat) (w : World) (start : Ptr) : Outcome (Int × World) :=
  if start = NULL then .ok (BAD_POINTER, w)
  else (print_list_loop T fuel start 1 w).bind fun w => .ok (SUCCESS, w)

/-- The body of the `do ... while (start != NULL)` loop of `calc_total` and
its repetition: `total` is the current value of `*total`. -/
def calc_total_loop (T : Target) (h : Heap) : Nat → Ptr → Int → Outcome Int
  | 0, _, _ => .timeout
  | fuel + 1, start, total =>
    match deref h start with
    | none => .fault
    | some node =>
      let total := wrap_signed T.long_bits (total + node.val)
      let start := node.next
      if start ≠ NULL then calc_total_loop T h fuel start total else .ok total

/-- The function `calc_total(start, total)`, where `total` is the value of
`*total` at the call: the result code and the value of `*total` after. -/
def calc_total (T : Target) (fuel : Nat) (h : Heap) (start : Ptr) (total : Int) :
    Outcome (Int × Int) :=
  if start = NULL then .ok (BAD_POINTER, total)
  else (calc_total_loop T h fuel start total).bind fun total => .ok (SUCCESS, total)

/-- The `for (i=1, tmp1=(*start); i < num; ++i)` loop of `build_list` with
`k = num - i` iterations left: the value of `result` and the state after.
The counter `i` stays below `num`, which is at most `MAX_OBJECTS` here. -/
def build_list_loop (num : Nat) : Nat → Ptr → World → Outcome (Int × World)
  | 0, _, w => .ok (SUCCESS, w)
  | k + 1, tmp1, w =>
    let w := { w with errno := SUCCESS }
    let m := malloc w
    let tmp2 := m.1
    let w := m.2
    if tmp2 = NULL ∨ w.errno ≠ SUCCESS then
      let result := if w.errno = SUCCESS then GENERIC_ERROR else w.errno
      .ok (result, printf w (Out.struct_error num))
    else
      let r := random w
      let w := r.2
      (store_val w.heap tmp2 (Int.tmod r.1 MAX_RANDOM + 1)).bind fun h =>
      (store_next h tmp2 NULL).bind fun h =>
      (store_next h tmp1 tmp2).bind fun h =>
      build_list_loop num k tmp2 { w with heap := h }

/-- The first `if` chain of `build_list`: the value of `result`, the value
of `*start` (`none` when `start` itself is `NULL`) and the state after. Both
checks after `malloc` test `start`, not `*start`, as the source does. -/
def build_list_first (num : Nat) (start : Option Ptr) (w : World) : Int × Option Ptr × World :=
  if start = none then
    (BAD_POINTER, start, printf w (Out.text "Error: unexpected NULL pointer in build_list\n"))
  else if num > MAX_OBJECTS then
    (INVALID_NUMBER, start, printf w (Out.text "Error: invalid number of objects in build_list\n"))
  else
    let w := { w with errno := 0 }
    let m := malloc w
    let start := start.map fun _ => m.1
    let w := m.2
    if start = none ∧ w.errno = SUCCESS then
      (GENERIC_ERROR, start, printf w (Out.text "Error: unable to allocate memory at start\n"))
    else if start = none ∧ w.errno ≠ SUCCESS then
      (w.errno, start, printf w (Out.perror "malloc error at start" w.errno))
    else
      (SUCCESS, start, w)

/-- The function `build_list(num, start)`. The argument `start` is `none`
for a `NULL` pointer and `some p` when `*start` holds `p` at the call. The
outcome is the result code, the value of `*start` on return and the state. -/
def build_list (num : Nat) (start : Option Ptr) (w : World) :
    Outcome (Int × Option Ptr × World) :=
  let s := build_list_first num start w
  if s.1 = SUCCESS then
    match s.2.1 with
    | none => .fault
    | some first =>
      let r := random s.2.2
      let w := r.2
      (store_val w.heap first (Int.tmod r.1 MAX_RANDOM + 1)).bind fun h =>
      (store_next h first NULL).bind fun h =>
      (build_list_loop num (num - 1) first { w with heap := h }).bind fun l =>
      .ok (l.1, some first, l.2)
  else .ok s

/-- The `while (1)` loop of `main` that releases the list from `tmp1` on. -/
def free_loop : Nat → Ptr → World → Outcome World
  | 0, _, _ => .timeout
  | fuel + 1, tmp1, w =>
    match deref w.heap tmp1 with
    | none => .fault
    | some node =>
      if node.next ≠ NULL then
        (free w tmp1).bind fun w => free_loop fuel node.next w
      else
        free w tmp1

/-- The assignment `num = (rand() % MAX_OBJECTS) + 1` of `main`, where `r` is
the value `rand()` returns: the sum is computed in `int` and converted to the
`unsigned int` variable `num`. -/
def main_num (T : Target) (r : Int) : Nat :=
  to_unsigned T.int_bits (Int.tmod r MAX_OBJECTS + 1)

/-- The function `main`, where `r` is the value `rand()` returns: the value
returned and the state at exit. The call `srandom(time(NULL))` fixes the
stream of `random()`, which is the oracle `w.randoms` here. -/
def main (T : Target) (fuel : Nat) (r : Int) (w : World) : Outcome (Int × World) :=
  let total : Int := 0
  let num := main_num T r
  let w := printf w (Out.length_line num)
  (build_list num (some NULL) w).bind fun b =>
  let start := b.2.1.getD NULL
  (if b.1 ≠ SUCCESS then
      Outcome.ok (b.1, total, printf b.2.2 (Out.text "Error: problem building list\n"))
    else
      (calc_total T fuel b.2.2.heap start total).bind fun c =>
      if c.1 ≠ SUCCESS then
        Outcome.ok (c.1, c.2, printf b.2.2 (Out.text "Error calculating total\n"))
      else Outcome.ok (c.1, c.2, b.2.2)).bind fun s =>
  (if s.1 = SUCCESS then
      (print_list T fuel s.2.2 start).bind fun p =>
      if p.1 ≠ SUCCESS then
        Outcome.ok (p.1, printf p.2 (Out.text "Error printing the list\n"))
      else Outcome.ok p
    else Outcome.ok (s.1, s.2.2)).bind fun p =>
  if p.1 = SUCCESS then
    (free_loop fuel start (printf p.2 (Out.total_line s.2.1))).bind fun w =>
    Outcome.ok (p.1, w)
  else Outcome.ok p

/-! ## Example states and the quantities the properties are stated with -/

/-- The state of a process at its start: nothing allocated, nothing printed,
with the given behaviour of `malloc` and `random()`. -/
def World.init (mallocs : Nat → MallocResult) (randoms : Nat → Int) : World :=
  ⟨Heap.empty, 0, mallocs, 0, randoms, 0, 0, [], []⟩

/-- The heap that holds the values `vals` as a list at the addresses
`1 .. vals.length`, in address order. -/
def heap_of_list (vals : List Int) : Heap :=
  fun p =>
    if 1 ≤ p ∧ p ≤ vals.length then
      some ⟨vals.getD (p - 1) 0, if p = vals.length then NULL else p + 1⟩
    else none

/-- A state whose heap holds exactly the list `vals`, at address `1`. -/
def World.of_list (vals : List Int) : World :=
  ⟨heap_of_list vals, vals.length, fun _ => .fails none, 0, fun _ => 0, 0, 0, [], []⟩

/-- One `Number` line per value, labelled `number`, `number + 1`, ... in
list order: the output the specification expects of the printer. -/
def number_lines (number : Int) : List Int → List Out
  | [] => []
  | v :: vs => Out.number_line number v :: number_lines (number + 1) vs

/-- One `Number` line per value, the label being an `int` counter that
starts at `number` and is incremented after every line. -/
def counted_lines (T : Target) (number : Int) : List Int → List Out
  | [] => []
  | v :: vs =>
    Out.number_line number v :: counted_lines T (wrap_signed T.int_bits (number + 1)) vs

/-- The values `build_list` gives to `k` nodes created from the state `w`
on, in the order of the calls of `random()`: `(r % MAX_RANDOM) + 1` each. -/
def drawn_vals (w : World) (k : Nat) : List Int :=
  (List.range k).map fun j => Int.tmod (w.randoms (w.nrandom + j)) MAX_RANDOM + 1

/-- The state one iteration of the `for` loop of `build_list` leaves when
its `malloc` returns a block and `errno` is still 0: the new node, at `w.brk + 1`, holds the value
drawn and a null link, and the node `c1` at `tmp1` is linked to it. -/
def loop_step_state (w : World) (tmp1 : Ptr) (c1 : value_t) : World :=
  { w with
    errno := SUCCESS
    heap := (w.heap.set (w.brk + 1)
              (some ⟨Int.tmod (w.randoms w.nrandom) MAX_RANDOM + 1, NULL⟩)).set tmp1
              (some { c1 with next := w.brk + 1 })
    brk := w.brk + 1
    nmalloc := w.nmalloc + 1
    nrandom := w.nrandom + 1 }

/-- The state `build_list` is in when it enters its `for` loop after a first
`malloc` that returned a block and left `err` in `errno`: the first node, at
`w.brk + 1`, holds the value drawn and a null link. -/
def first_node_state (w : World) (err : Option Int) : World :=
  { w with
    errno := err.getD 0
    heap := w.heap.set (w.brk + 1)
              (some ⟨Int.tmod (w.randoms w.nrandom) MAX_RANDOM + 1, NULL⟩)
    brk := w.brk + 1
    nmalloc := w.nmalloc + 1
    nrandom := w.nrandom + 1 }

/-- The result code `build_list` gives when its loop takes a `malloc` for a
failure, the call having left `err` in `errno` (`none`: `errno` not set). -/
def alloc_error_code (err : Option Int) : Int :=
  if err.getD SUCCESS = SUCCESS then GENERIC_ERROR else err.getD SUCCESS

/-- A list of 2147483648 (two to the power 31) values, all zero: one more
node than the largest `int` of a 32-bit target. -/
@[irreducible] def many_zeros : List Int := List.replicate 2147483648 0

/-! ## Formatted output, memory traffic and running totals -/

/-- The string `s` right-justified in a field of `width` characters, padded
with spaces on the left; a longer string is left as it is. -/
def pad_left (width : Nat) (s : String) : String :=
  String.mk (List.replicate (width - s.length) ' ') ++ s

/-- The conversions `%<width>d` and `%<width>ld` of `printf`: the decimal
digits of `x`, with a minus sign when negative, right-justified in `width`
characters. -/
def fmt_d (width : Nat) (x : Int) : String :=
  pad_left width (toString x)

/-- The text the call `printf("Number %2d = %2ld\n", number, val)` of
`print_list` writes. -/
def number_line_text (number val : Int) : String :=
  "Number " ++ fmt_d 2 number ++ " = " ++ fmt_d 2 val ++ "\n"

/-- A number below 100 written on exactly two characters: a space or the
tens digit, then the units digit. -/
def two_wide (x : Nat) : String :=
  String.mk [if x < 10 then ' ' else Char.ofNat (48 + x / 10), Char.ofNat (48 + x % 10)]

/-- The loop of `calc_total` once more, keeping every value it assigns to
`*total`, in order. -/
def calc_total_steps (T : Target) (h : Heap) : Nat → Ptr → Int → Outcome (List Int)
  | 0, _, _ => .timeout
  | fuel + 1, start, total =>
    match deref h start with
    | none => .fault
    | some node =>
      let total := wrap_signed T.long_bits (total + node.val)
      let start := node.next
      if start ≠ NULL then
        (calc_total_steps T h fuel start total).bind fun rest => .ok (total :: rest)
      else .ok [total]

/-- The exact running sums `t + a1`, `t + a1 + a2`, ... of a list of values. -/
def running_sums (t : Int) : List Int → List Int
  | [] => []
  | v :: vs => (t + v) :: running_sums (t + v) vs

/-- The addresses of the first `n` nodes of the list at `p`, in list order. -/
def list_addrs (h : Heap) : Ptr → Nat → List Ptr
  | _, 0 => []
  | p, n + 1 =>
    p :: (match deref h p with
          | none => []
          | some c => list_addrs h c.next n)

end Randadd1

namespace Randadd1

/-! ## Machine arithmetic -/

@[simp] theorem Outcome.bind_ok {α β : Type} (a : α) (f : α → Outcome β) :
    (Outcome.ok a).bind f = f a := rfl

@[simp] theorem Outcome.bind_fault {α β : Type} (f : α → Outcome β) :
    (Outcome.fault : Outcome α).bind f = Outcome.fault := rfl

@[simp] theorem Outcome.bind_timeout {α β : Type} (f : α → Outcome β) :
    (Outcome.timeout : Outcome α).bind f = Outcome.timeout := rfl

theorem two_pow_pos_int (bits : Nat) : (0 : Int) < (2 : Int) ^ bits :=
  pow_pos (by norm_num) bits

theorem wrap_signed_emod (bits : Nat) (x : Int) :
    wrap_signed bits x % (2 : Int) ^ bits = x % (2 : Int) ^ bits := by
  unfold wrap_signed
  simp only
  split
  · exact Int.emod_emod_of_dvd x (dvd_refl _)
  · rw [Int.sub_emod, Int.emod_self, sub_zero, Int.emod_emod_of_dvd _ (dvd_refl _),
      Int.emod_emod_of_dvd _ (dvd_refl _)]

theorem wrap_signed_congr (bits : Nat) (x y : Int)
    (h : x % (2 : Int) ^ bits = y % (2 : Int) ^ bits) :
    wrap_signed bits x = wrap_signed bits y := by
  unfold wrap_signed
  simp only [h]

/-- Wrapping an intermediate sum does not change the wrapped final sum. -/
theorem wrap_signed_add_wrap (bits : Nat) (a c : Int) :
    wrap_signed bits (wrap_signed bits a + c) = wrap_signed bits (a + c) := by
  apply wrap_signed_congr
  rw [Int.add_emod, wrap_signed_emod, ← Int.add_emod]

/-- A value that fits the signed type is left alone by the reduction. -/
theorem wrap_signed_of_range (bits : Nat) (x : Int) (h : in_signed_range bits x) :
    wrap_signed bits x = x := by
  obtain ⟨hlo, hhi⟩ := h
  cases bits with
  | zero => simp at hlo hhi; omega
  | succ k =>
    have hk : (0 : Int) < (2 : Int) ^ k := two_pow_pos_int k
    have hM : (2 : Int) ^ (k + 1) = 2 * (2 : Int) ^ k := by rw [pow_succ]; ring
    have hH : (2 : Int) ^ (k + 1) / 2 = (2 : Int) ^ k := by
      rw [hM]; exact Int.mul_ediv_cancel_left _ (by norm_num)
    rw [hH] at hlo hhi
    unfold wrap_signed
    simp only [hH]
    rw [hM]
    by_cases hx : 0 ≤ x
    · have hr : x % (2 * (2 : Int) ^ k) = x := Int.emod_eq_of_lt hx (by omega)
      rw [hr, if_pos hhi]
    · have hr : x % (2 * (2 : Int) ^ k) = x + 2 * (2 : Int) ^ k := by
        rw [← Int.add_emod_self]
        exact Int.emod_eq_of_lt (by omega) (by omega)
      rw [hr, if_neg (by omega)]
      omega

/-- The reduction always lands in the range of the signed type. -/
theorem wrap_signed_in_range (bits : Nat) (hb : 0 < bits) (x : Int) :
    in_signed_range bits (wrap_signed bits x) := by
  obtain ⟨k, rfl⟩ : ∃ k, bits = k + 1 := ⟨bits - 1, by omega⟩
  have hk : (0 : Int) < (2 : Int) ^ k := two_pow_pos_int k
  have hM : (2 : Int) ^ (k + 1) = 2 * (2 : Int) ^ k := by rw [pow_succ]; ring
  have hH : (2 : Int) ^ (k + 1) / 2 = (2 : Int) ^ k := by
    rw [hM]; exact Int.mul_ediv_cancel_left _ (by norm_num)
  have h0 : 0 ≤ x % (2 * (2 : Int) ^ k) := Int.emod_nonneg _ (by omega)
  have h1 : x % (2 * (2 : Int) ^ k) < 2 * (2 : Int) ^ k := Int.emod_lt_of_pos _ (by omega)
  unfold in_signed_range wrap_signed
  simp only [hH]
  rw [hM]
  split <;> constructor <;> omega

/-- The signed range of a wider type contains that of a narrower one. -/
theorem in_signed_range_mono {a b : Nat} (hab : a ≤ b) (x : Int)
    (h : in_signed_range a x) : in_signed_range b x := by
  obtain ⟨hlo, hhi⟩ := h
  cases a with
  | zero => simp at hlo hhi; omega
  | succ k =>
    obtain ⟨j, rfl⟩ : ∃ j, b = j + 1 := ⟨b - 1, by omega⟩
    have hkj : (2 : Int) ^ k ≤ (2 : Int) ^ j :=
      pow_le_pow_right₀ (by norm_num) (by omega)
    have hH : ∀ n : Nat, (2 : Int) ^ (n + 1) / 2 = (2 : Int) ^ n := by
      intro n
      rw [pow_succ, mul_comm]; exact Int.mul_ediv_cancel_left _ (by norm_num)
    unfold in_signed_range
    rw [hH] at hlo hhi ⊢
    constructor <;> omega

/-! ## Lists in the heap -/

theorem deref_eq_some {h : Heap} {p : Ptr} {c : value_t} (hc : deref h p = some c) :
    p ≠ NULL ∧ h p = some c := by
  unfold deref at hc
  split at hc
  · exact absurd hc (by simp)
  · exact ⟨by assumption, hc⟩

theorem deref_of_ne_null {h : Heap} {p : Ptr} (hp : p ≠ NULL) : deref h p = h p := by
  unfold deref; rw [if_neg hp]

theorem isList_nil (h : Heap) (p : Ptr) : isList h p [] ↔ p = NULL := by
  unfold isList; exact Iff.rfl

theorem isList_cons (h : Heap) (p : Ptr) (v : Int) (vs : List Int) :
    isList h p (v :: vs) ↔ ∃ c, deref h p = some c ∧ c.val = v ∧ isList h c.next vs := by
  conv => lhs; unfold isList
  cases hc : deref h p with
  | none => simp
  | some c => simp

/-- A non-empty list does not start at the null pointer. -/
theorem isList_ne_null {h : Heap} {p : Ptr} {vals : List Int} (hl : isList h p vals)
    (hne : vals ≠ []) : p ≠ NULL := by
  cases vals with
  | nil => exact absurd rfl hne
  | cons v vs =>
    obtain ⟨c, hc, _, _⟩ := (isList_cons h p v vs).1 hl
    exact (deref_eq_some hc).1

/-- The values of the list at an address are determined by the heap. -/
theorem isList_unique {h : Heap} {p : Ptr} {l1 l2 : List Int}
    (h1 : isList h p l1) (h2 : isList h p l2) : l1 = l2 := by
  induction l1 generalizing p l2 with
  | nil =>
    cases l2 with
    | nil => rfl
    | cons v vs =>
      exact absurd ((isList_nil h p).1 h1) (isList_ne_null h2 (by simp))
  | cons v vs ih =>
    cases l2 with
    | nil => exact absurd ((isList_nil h p).1 h2) (isList_ne_null h1 (by simp))
    | cons v2 vs2 =>
      obtain ⟨c, hc, hv, ht⟩ := (isList_cons h p v vs).1 h1
      obtain ⟨c2, hc2, hv2, ht2⟩ := (isList_cons h p v2 vs2).1 h2
      rw [hc] at hc2
      cases hc2
      rw [← hv, ← hv2, ih ht ht2]

/-- Changing a cell that no list of length at most that of `vals` starts at
leaves the list `vals` at `q` alone. -/
theorem isList_set_of_no_short {h : Heap} {p q : Ptr} {c : Option value_t} {vals : List Int}
    (hl : isList h q vals)
    (hp : ∀ s : List Int, s.length ≤ vals.length → ¬ isList h p s) :
    isList (h.set p c) q vals := by
  induction vals generalizing q with
  | nil => exact (isList_nil _ _).2 ((isList_nil _ _).1 hl)
  | cons v vs ih =>
    obtain ⟨d, hd, hv, ht⟩ := (isList_cons h q v vs).1 hl
    have hqp : q ≠ p := by
      rintro rfl
      exact hp (v :: vs) (le_refl _) hl
    refine (isList_cons _ _ _ _).2 ⟨d, ?_, hv, ?_⟩
    · have hq0 := (deref_eq_some hd).1
      rw [deref_of_ne_null hq0]
      unfold Heap.set
      rw [if_neg hqp]
      exact (deref_eq_some hd).2
    · exact ih ht (fun s hs => hp s (by simp at hs ⊢; omega))

/-- The tail of a list survives any change of its head cell. -/
theorem isList_tail_set_head {h : Heap} {p : Ptr} {v : Int} {vs : List Int} {nxt : Ptr}
    (hl : isList h p (v :: vs)) (ht : isList h nxt vs) (c : Option value_t) :
    isList (h.set p c) nxt vs := by
  apply isList_set_of_no_short ht
  intro s hs hps
  have := isList_unique hps hl
  rw [this] at hs
  simp at hs

/-! ## `calc_total` -/

/-- The loop of `calc_total` on a non-empty list: with fuel for every node
it ends with the wrapped sum of the start value and the values. -/
theorem calc_total_loop_spec (T : Target) (h : Heap) (vals : List Int) :
    ∀ (fuel : Nat) (start : Ptr) (total : Int), isList h start vals → vals ≠ [] →
      vals.length ≤ fuel →
      calc_total_loop T h fuel start total
        = Outcome.ok (wrap_signed T.long_bits (total + vals.sum)) := by
  induction vals with
  | nil => intro _ _ _ _ hne; exact absurd rfl hne
  | cons v vs ih =>
    intro fuel start total hl _ hf
    obtain ⟨c, hc, hv, ht⟩ := (isList_cons h start v vs).1 hl
    obtain ⟨f, rfl⟩ : ∃ f, fuel = f + 1 := ⟨fuel - 1, by simp at hf; omega⟩
    unfold calc_total_loop
    simp only [hc, hv]
    cases vs with
    | nil =>
      have : c.next = NULL := (isList_nil _ _).1 ht
      simp [this]
    | cons v2 vs2 =>
      have hn : c.next ≠ NULL := isList_ne_null ht (by simp)
      rw [if_pos hn, ih f c.next _ ht (by simp) (by simp at hf ⊢; omega)]
      rw [wrap_signed_add_wrap]
      simp [List.sum_cons, add_assoc]

/-- The result of `calc_total` on any null-terminated list, empty or not. -/
theorem calc_total_spec (T : Target) (fuel : Nat) (h : Heap) (start : Ptr) (vals : List Int)
    (total : Int) (hl : isList h start vals) (hf : vals.length ≤ fuel) :
    calc_total T fuel h start total
      = if vals = [] then Outcome.ok (BAD_POINTER, total)
        else Outcome.ok (SUCCESS, wrap_signed T.long_bits (total + vals.sum)) := by
  unfold calc_total
  by_cases hv : vals = []
  · subst hv
    rw [if_pos ((isList_nil _ _).1 hl), if_pos rfl]
  · rw [if_neg (isList_ne_null hl hv), if_neg hv, calc_total_loop_spec T h vals fuel start total hl hv hf]
    rfl

/-! ## The example heaps -/

theorem heap_of_list_apply (vals : List Int) (k : Nat) (hlt : k < vals.length) :
    heap_of_list vals (k + 1)
      = some ⟨vals[k], if k + 1 = vals.length then NULL else k + 1 + 1⟩ := by
  have h1 : 1 ≤ k + 1 ∧ k + 1 ≤ vals.length := ⟨by omega, by omega⟩
  simp only [heap_of_list, if_pos h1, Nat.add_sub_cancel, List.getD_eq_getElem _ _ hlt]

theorem isList_heap_of_list_drop (vals : List Int) :
    ∀ (j k : Nat), k + j + 1 = vals.length →
      isList (heap_of_list vals) (k + 1) (vals.drop k) := by
  intro j
  induction j with
  | zero =>
    intro k hk
    have hlt : k < vals.length := by omega
    rw [List.drop_eq_getElem_cons hlt, List.drop_eq_nil_of_le (by omega)]
    refine (isList_cons _ _ _ _).2 ⟨⟨vals[k], NULL⟩, ?_, rfl, (isList_nil _ _).2 rfl⟩
    rw [deref_of_ne_null (by simp [NULL]), heap_of_list_apply vals k hlt, if_pos (by omega)]
  | succ j ih =>
    intro k hk
    have hlt : k < vals.length := by omega
    rw [List.drop_eq_getElem_cons hlt]
    refine (isList_cons _ _ _ _).2 ⟨⟨vals[k], k + 1 + 1⟩, ?_, rfl, ih (k + 1) (by omega)⟩
    rw [deref_of_ne_null (by simp [NULL]), heap_of_list_apply vals k hlt, if_neg (by omega)]

/-- The example heap of a non-empty list of values holds that list at address `1`. -/
theorem isList_heap_of_list (vals : List Int) (hne : vals ≠ []) :
    isList (heap_of_list vals) 1 vals := by
  have hpos : 0 < vals.length := List.length_pos.2 hne
  have := isList_heap_of_list_drop vals (vals.length - 1) 0 (by omega)
  simpa using this

/-! ## `print_list` -/

theorem counted_lines_length (T : Target) (vals : List Int) :
    ∀ number : Int, (counted_lines T number vals).length = vals.length := by
  induction vals with
  | nil => intro _; rfl
  | cons v vs ih => intro number; simp [counted_lines, ih]

theorem number_lines_length (vals : List Int) :
    ∀ number : Int, (number_lines number vals).length = vals.length := by
  induction vals with
  | nil => intro _; rfl
  | cons v vs ih => intro number; simp [number_lines, ih]

/-- The line at position `i` (from 0) of the expected output carries the
label `number + i` and the value at position `i`. -/
theorem number_lines_getElem? (vals : List Int) :
    ∀ (number : Int) (i : Nat) (hi : i < vals.length),
      (number_lines number vals)[i]? = some (Out.number_line (number + i) vals[i]) := by
  induction vals with
  | nil => intro _ i hi; simp at hi
  | cons v vs ih =>
    intro number i hi
    cases i with
    | zero => simp [number_lines]
    | succ i =>
      simp only [number_lines, List.getElem?_cons_succ, List.getElem_cons_succ]
      rw [ih (number + 1) i (by simpa using hi)]
      congr 2
      push_cast
      ring

/-- The line at position `i` (from 0) of the output of the counting loop
carries the wrapped label `number + i` and the value at position `i`. -/
theorem counted_lines_getElem? (T : Target) (vals : List Int) :
    ∀ (number : Int) (i : Nat) (hi : i < vals.length), in_signed_range T.int_bits number →
      (counted_lines T number vals)[i]?
        = some (Out.number_line (wrap_signed T.int_bits (number + i)) vals[i]) := by
  have hb : 0 < T.int_bits := lt_of_lt_of_le (by decide) T.int_ok
  induction vals with
  | nil => intro _ i hi; simp at hi
  | cons v vs ih =>
    intro number i hi hr
    cases i with
    | zero => simp [counted_lines, wrap_signed_of_range _ _ hr]
    | succ i =>
      simp only [counted_lines, List.getElem?_cons_succ, List.getElem_cons_succ]
      rw [ih _ i (by simpa using hi) (wrap_signed_in_range _ hb _), wrap_signed_add_wrap]
      congr 3
      push_cast
      ring

/-- While the counter stays within `int`, the counting loop prints the
expected labels. -/
theorem counted_lines_eq_number_lines (T : Target) (vals : List Int) :
    ∀ number : Int, in_signed_range T.int_bits number →
      in_signed_range T.int_bits (number + vals.length - 1) →
      counted_lines T number vals = number_lines number vals := by
  induction vals with
  | nil => intro _ _ _; rfl
  | cons v vs ih =>
    intro number hr hlast
    cases vs with
    | nil => simp [counted_lines, number_lines]
    | cons v2 vs2 =>
      have hstep : in_signed_range T.int_bits (number + 1) := by
        unfold in_signed_range at hr hlast ⊢
        simp only [List.length_cons] at hlast
        push_cast at hlast
        constructor <;> omega
      have hw := wrap_signed_of_range _ _ hstep
      unfold counted_lines number_lines
      rw [hw, ih (number + 1) hstep (by
        simp only [List.length_cons] at hlast ⊢
        push_cast at hlast ⊢
        have : number + 1 + ((vs2.length : Int) + 1) - 1 = number + ((vs2.length : Int) + 1 + 1) - 1 := by ring
        rw [this]; exact hlast)]

/-- The loop of `print_list` on a non-empty list: with fuel for every node
it ends having printed one line per node, in list order. -/
theorem print_list_loop_spec (T : Target) (vals : List Int) :
    ∀ (fuel : Nat) (start : Ptr) (number : Int) (w : World),
      isList w.heap start vals → vals ≠ [] → vals.length ≤ fuel →
      print_list_loop T fuel start number w
        = Outcome.ok { w with out := w.out ++ counted_lines T number vals } := by
  induction vals with
  | nil => intro _ _ _ _ _ hne; exact absurd rfl hne
  | cons v vs ih =>
    intro fuel start number w hl _ hf
    obtain ⟨c, hc, hv, ht⟩ := (isList_cons w.heap start v vs).1 hl
    obtain ⟨f, rfl⟩ : ∃ f, fuel = f + 1 := ⟨fuel - 1, by simp at hf; omega⟩
    unfold print_list_loop
    simp only [hc, hv]
    cases vs with
    | nil =>
      have : c.next = NULL := (isList_nil _ _).1 ht
      simp [this, counted_lines, printf]
    | cons v2 vs2 =>
      have hn : c.next ≠ NULL := isList_ne_null ht (by simp)
      rw [if_pos hn, ih f c.next _ (printf w (Out.number_line number v)) ht (by simp)
        (by simp at hf ⊢; omega)]
      simp [printf, counted_lines]

/-- The result of `print_list` on any null-terminated list, empty or not. -/
theorem print_list_spec (T : Target) (fuel : Nat) (w : World) (start : Ptr) (vals : List Int)
    (hl : isList w.heap start vals) (hf : vals.length ≤ fuel) :
    print_list T fuel w start
      = if vals = [] then Outcome.ok (BAD_POINTER, w)
        else Outcome.ok (SUCCESS, { w with out := w.out ++ counted_lines T 1 vals }) := by
  unfold print_list
  by_cases hv : vals = []
  · subst hv
    rw [if_pos ((isList_nil _ _).1 hl), if_pos rfl]
  · rw [if_neg (isList_ne_null hl hv), if_neg hv,
      print_list_loop_spec T vals fuel start 1 w hl hv hf]
    rfl

/-! ## `build_list` -/

theorem Heap.set_set (h : Heap) (p : Ptr) (a b : Option value_t) :
    (h.set p a).set p b = h.set p b := by
  funext q
  unfold Heap.set
  split <;> rfl

theorem Heap.set_same (h : Heap) (p : Ptr) (a : Option value_t) : (h.set p a) p = a := by
  unfold Heap.set; rw [if_pos rfl]

theorem Heap.set_other (h : Heap) {p q : Ptr} (a : Option value_t) (hq : q ≠ p) :
    (h.set p a) q = h q := by
  unfold Heap.set; rw [if_neg hq]

theorem drawn_vals_succ (w : World) (k : Nat) :
    drawn_vals w (k + 1)
      = (Int.tmod (w.randoms w.nrandom) MAX_RANDOM + 1)
          :: drawn_vals { w with nrandom := w.nrandom + 1 } k := by
  unfold drawn_vals
  rw [List.range_succ_eq_map]
  simp only [List.map_cons, List.map_map, Nat.add_zero]
  congr 1
  apply List.map_congr_left
  intro j _
  simp only [Function.comp, Nat.succ_eq_add_one]
  congr 3
  omega

theorem drawn_vals_length (w : World) (k : Nat) : (drawn_vals w k).length = k := by
  simp [drawn_vals]

theorem succeeds_block {m : MallocResult} (h : m.succeeds = true) :
    ∃ init err, m = MallocResult.block init err := by
  cases m with
  | block init err => exact ⟨init, err, rfl⟩
  | fails e => simp [MallocResult.succeeds] at h

theorem passes_block {m : MallocResult} (h : m.passes = true) :
    ∃ init err, m = MallocResult.block init err ∧ err.getD SUCCESS = SUCCESS := by
  cases m with
  | block init err => exact ⟨init, err, rfl, by simpa [MallocResult.passes] using h⟩
  | fails e => simp [MallocResult.passes] at h

theorem alloc_error_code_ne_zero (err : Option Int) : alloc_error_code err ≠ SUCCESS := by
  unfold alloc_error_code
  split
  · simp [GENERIC_ERROR, SUCCESS]
  · assumption

/-- The state after one iteration of the `for` loop whose `malloc` returns a
block and leaves `errno` at 0. -/
theorem build_list_loop_step (num k : Nat) (tmp1 : Nat) (w : World) (c1 init : value_t)
    (err : Option Int) (hc : deref w.heap tmp1 = some c1) (hle : tmp1 ≤ w.brk)
    (hm : w.mallocs w.nmalloc = MallocResult.block init err)
    (he : err.getD SUCCESS = SUCCESS) :
    build_list_loop num (k + 1) tmp1 w
      = build_list_loop num k (w.brk + 1) (loop_step_state w tmp1 c1) := by
  unfold loop_step_state
  have h1 := deref_eq_some hc
  have hne : tmp1 ≠ w.brk + 1 := by omega
  have hnull : w.brk + 1 ≠ NULL := by simp [NULL]
  rw [build_list_loop]
  simp only [malloc, hm, random, store_val, store_next, he]
  rw [if_neg (by simp [hnull])]
  simp only [deref_of_ne_null hnull, Heap.set_same, Outcome.bind_ok, Heap.set_set]
  rw [deref_of_ne_null h1.1, Heap.set_other _ _ hne, h1.2]
  simp only [Outcome.bind_ok]

theorem deref_loop_step_state (w : World) (tmp1 : Nat) (c1 : value_t) (hle : tmp1 ≤ w.brk) :
    deref (loop_step_state w tmp1 c1).heap (w.brk + 1)
      = some ⟨Int.tmod (w.randoms w.nrandom) MAX_RANDOM + 1, NULL⟩ := by
  have hne : tmp1 ≠ w.brk + 1 := by omega
  have hnull : w.brk + 1 ≠ NULL := by simp [NULL]
  show deref ((w.heap.set (w.brk + 1) _).set tmp1 _) (w.brk + 1) = _
  rw [deref_of_ne_null hnull, Heap.set_other _ _ (Ne.symm hne), Heap.set_same]

/-- The `for` loop when it takes every `malloc` it calls for a success: it
ends with `SUCCESS`, the nodes created hang behind `tmp1` in draw order, and
nothing else that was allocated before has changed. -/
theorem build_list_loop_ok (num : Nat) :
    ∀ (k : Nat) (tmp1 : Nat) (w : World) (c1 : value_t),
      deref w.heap tmp1 = some c1 → c1.next = NULL → tmp1 ≤ w.brk →
      (∀ j, j < k → (w.mallocs (w.nmalloc + j)).passes = true) →
      ∃ w', build_list_loop num k tmp1 w = Outcome.ok (SUCCESS, w') ∧
        isList w'.heap tmp1 (c1.val :: drawn_vals w k) ∧
        (∀ q : Nat, q ≤ w.brk → q ≠ tmp1 → w'.heap q = w.heap q) ∧
        w'.out = w.out ∧ w'.frees = w.frees ∧ w'.nrandom = w.nrandom + k ∧
        w'.nmalloc = w.nmalloc + k ∧ w'.brk = w.brk + k ∧
        w'.randoms = w.randoms ∧ w'.mallocs = w.mallocs := by
  intro k
  induction k with
  | zero =>
    intro tmp1 w c1 hc hn _ _
    refine ⟨w, rfl, ?_, fun _ _ _ => rfl, rfl, rfl, rfl, rfl, rfl, rfl, rfl⟩
    exact (isList_cons _ _ _ _).2 ⟨c1, hc, rfl, (isList_nil _ _).2 hn⟩
  | succ k ih =>
    intro tmp1 w c1 hc hn hle hm
    have h0 := hm 0 (by omega)
    rw [Nat.add_zero] at h0
    obtain ⟨init, err, hinit, he⟩ := passes_block h0
    have h1 := deref_eq_some hc
    have hne : tmp1 ≠ w.brk + 1 := by omega
    rw [build_list_loop_step num k tmp1 w c1 init err hc hle hinit he]
    have hm2 : ∀ j, j < k →
        ((loop_step_state w tmp1 c1).mallocs
          ((loop_step_state w tmp1 c1).nmalloc + j)).passes = true := by
      intro j hj
      have := hm (j + 1) (by omega)
      show (w.mallocs (w.nmalloc + 1 + j)).passes = true
      rw [Nat.add_assoc, Nat.add_comm 1 j]
      exact this
    obtain ⟨w', hrun, hlist, hframe, hout, hfrees, hnr, hnm, hbrk, hrs, hms⟩ :=
      ih (w.brk + 1) (loop_step_state w tmp1 c1) _ (deref_loop_step_state w tmp1 c1 hle)
        rfl (le_refl _) hm2
    refine ⟨w', hrun, ?_, ?_, hout, hfrees, ?_, ?_, ?_, hrs, hms⟩
    · rw [drawn_vals_succ]
      refine (isList_cons _ _ _ _).2 ⟨{ c1 with next := w.brk + 1 }, ?_, rfl, hlist⟩
      rw [deref_of_ne_null h1.1, hframe tmp1 (by show tmp1 ≤ w.brk + 1; omega) hne]
      show ((w.heap.set (w.brk + 1) _).set tmp1 _) tmp1 = _
      rw [Heap.set_same]
    · intro q hq hq1
      have hq3 : q ≠ w.brk + 1 := by omega
      rw [hframe q (by show q ≤ w.brk + 1; omega) hq3]
      show ((w.heap.set (w.brk + 1) _).set tmp1 _) q = _
      rw [Heap.set_other _ _ hq1, Heap.set_other _ _ hq3]
    · rw [hnr]; show w.nrandom + 1 + k = _; omega
    · rw [hnm]; show w.nmalloc + 1 + k = _; omega
    · rw [hbrk]; show w.brk + 1 + k = _; omega

/-- One iteration of the `for` loop whose `malloc` the loop takes for a
failure, because it returned `NULL` or because it left `errno` set: the loop
stops with the code of the failure; a block that was returned stays
allocated and is linked to nothing. -/
theorem build_list_loop_stop (num k : Nat) (tmp1 : Nat) (w : World) (c1 : value_t)
    (hc : deref w.heap tmp1 = some c1) (hle : tmp1 ≤ w.brk)
    (hfail : (w.mallocs w.nmalloc).passes = false) :
    ∃ w', build_list_loop num (k + 1) tmp1 w
        = Outcome.ok (alloc_error_code (w.mallocs w.nmalloc).err, w') ∧
      deref w'.heap tmp1 = some c1 ∧
      (∀ q : Nat, q ≤ w.brk → w'.heap q = w.heap q) ∧
      w'.out = w.out ++ [Out.struct_error num] ∧ w'.frees = w.frees ∧
      w'.nrandom = w.nrandom ∧ w'.nmalloc = w.nmalloc + 1 ∧
      w'.brk = w.brk + (if (w.mallocs w.nmalloc).succeeds = true then 1 else 0) ∧
      w'.errno = (w.mallocs w.nmalloc).err.getD SUCCESS := by
  have h1 := deref_eq_some hc
  cases hm : w.mallocs w.nmalloc with
  | fails err =>
    refine ⟨printf { w with errno := err.getD SUCCESS, nmalloc := w.nmalloc + 1 }
      (Out.struct_error num), ?_, hc, fun _ _ => rfl, rfl, rfl, rfl, rfl, rfl, rfl⟩
    rw [build_list_loop]
    simp only [malloc, hm, true_or, if_true]
    rfl
  | block init err =>
    have he : err.getD SUCCESS ≠ SUCCESS := by
      rw [hm] at hfail
      simpa [MallocResult.passes] using hfail
    have hne : tmp1 ≠ w.brk + 1 := by omega
    refine ⟨printf { w with heap := w.heap.set (w.brk + 1) (some init), brk := w.brk + 1,
                            errno := err.getD SUCCESS, nmalloc := w.nmalloc + 1 }
      (Out.struct_error num), ?_, ?_, ?_, rfl, rfl, rfl, rfl, rfl, rfl⟩
    · rw [build_list_loop]
      simp only [malloc, hm]
      rw [if_pos (Or.inr he)]
      rfl
    · show deref (w.heap.set (w.brk + 1) (some init)) tmp1 = _
      rw [deref_of_ne_null h1.1, Heap.set_other _ _ hne]
      exact h1.2
    · intro q hq
      have hq2 : q ≠ w.brk + 1 := by omega
      show (w.heap.set (w.brk + 1) (some init)) q = _
      rw [Heap.set_other _ _ hq2]

/-- The `for` loop when the `malloc` of its iteration `j` (from 0) is the
first it takes for a failure: it stops there with a non-zero code, having
linked the `j` nodes created before behind `tmp1`. -/
theorem build_list_loop_fail (num : Nat) :
    ∀ (j k : Nat) (tmp1 : Nat) (w : World) (c1 : value_t),
      deref w.heap tmp1 = some c1 → c1.next = NULL → tmp1 ≤ w.brk → j < k →
      (∀ i, i < j → (w.mallocs (w.nmalloc + i)).passes = true) →
      (w.mallocs (w.nmalloc + j)).passes = false →
      ∃ w', build_list_loop num k tmp1 w
          = Outcome.ok (alloc_error_code (w.mallocs (w.nmalloc + j)).err, w') ∧
        isList w'.heap tmp1 (c1.val :: drawn_vals w j) ∧
        (∀ q : Nat, q ≤ w.brk → q ≠ tmp1 → w'.heap q = w.heap q) ∧
        w'.out = w.out ++ [Out.struct_error num] ∧ w'.frees = w.frees ∧
        w'.nrandom = w.nrandom + j ∧ w'.nmalloc = w.nmalloc + j + 1 ∧
        w'.brk = w.brk + j
          + (if (w.mallocs (w.nmalloc + j)).succeeds = true then 1 else 0) ∧
        w'.errno = (w.mallocs (w.nmalloc + j)).err.getD SUCCESS := by
  intro j
  induction j with
  | zero =>
    intro k tmp1 w c1 hc hn hle hk _ hfail
    obtain ⟨k, rfl⟩ : ∃ k0, k = k0 + 1 := ⟨k - 1, by omega⟩
    rw [Nat.add_zero] at hfail ⊢
    obtain ⟨w', hrun, hd, hframe, hout, hfrees, hnr, hnm, hbrk, herrno⟩ :=
      build_list_loop_stop num k tmp1 w c1 hc hle hfail
    refine ⟨w', hrun, ?_, fun q hq _ => hframe q hq, hout, hfrees, hnr, hnm, ?_, herrno⟩
    · exact (isList_cons _ _ _ _).2 ⟨c1, hd, rfl, (isList_nil _ _).2 hn⟩
    · rw [hbrk]
      simp only [Nat.add_zero]
  | succ j ih =>
    intro k tmp1 w c1 hc hn hle hk hm hfail
    obtain ⟨k, rfl⟩ : ∃ k0, k = k0 + 1 := ⟨k - 1, by omega⟩
    have h0 := hm 0 (by omega)
    rw [Nat.add_zero] at h0
    obtain ⟨init, err, hinit, he⟩ := passes_block h0
    have h1 := deref_eq_some hc
    have hne : tmp1 ≠ w.brk + 1 := by omega
    rw [build_list_loop_step num k tmp1 w c1 init err hc hle hinit he]
    have hm2 : ∀ i, i < j →
        ((loop_step_state w tmp1 c1).mallocs
          ((loop_step_state w tmp1 c1).nmalloc + i)).passes = true := by
      intro i hi
      have := hm (i + 1) (by omega)
      show (w.mallocs (w.nmalloc + 1 + i)).passes = true
      rw [Nat.add_assoc, Nat.add_comm 1 i]
      exact this
    have hidx : w.nmalloc + 1 + j = w.nmalloc + (j + 1) := by omega
    have hfail2 : ((loop_step_state w tmp1 c1).mallocs
        ((loop_step_state w tmp1 c1).nmalloc + j)).passes = false := by
      show (w.mallocs (w.nmalloc + 1 + j)).passes = false
      rw [hidx]
      exact hfail
    obtain ⟨w', hrun, hlist, hframe, hout, hfrees, hnr, hnm, hbrk, herrno⟩ :=
      ih k (w.brk + 1) (loop_step_state w tmp1 c1) _ (deref_loop_step_state w tmp1 c1 hle)
        rfl (le_refl _) (by omega) hm2 hfail2
    have hmeq : (loop_step_state w tmp1 c1).mallocs ((loop_step_state w tmp1 c1).nmalloc + j)
        = w.mallocs (w.nmalloc + (j + 1)) := by
      show w.mallocs (w.nmalloc + 1 + j) = _
      rw [hidx]
    rw [hmeq] at hrun hbrk herrno
    refine ⟨w', hrun, ?_, ?_, hout, hfrees, ?_, ?_, ?_, herrno⟩
    · rw [drawn_vals_succ]
      refine (isList_cons _ _ _ _).2 ⟨{ c1 with next := w.brk + 1 }, ?_, rfl, hlist⟩
      rw [deref_of_ne_null h1.1, hframe tmp1 (by show tmp1 ≤ w.brk + 1; omega) hne]
      show ((w.heap.set (w.brk + 1) _).set tmp1 _) tmp1 = _
      rw [Heap.set_same]
    · intro q hq hq1
      have hq3 : q ≠ w.brk + 1 := by omega
      rw [hframe q (by show q ≤ w.brk + 1; omega) hq3]
      show ((w.heap.set (w.brk + 1) _).set tmp1 _) q = _
      rw [Heap.set_other _ _ hq1, Heap.set_other _ _ hq3]
    · rw [hnr]; show w.nrandom + 1 + j = _; omega
    · rw [hnm]; show w.nmalloc + 1 + j + 1 = _; omega
    · rw [hbrk]; show w.brk + 1 + j + _ = _; omega

/-- The first `if` chain of `build_list` for a valid pointer and a length of
at most `MAX_OBJECTS`: it calls `malloc` once and leaves `result` at `SUCCESS`
whatever `malloc` returned. -/
theorem build_list_first_in_range (num : Nat) (cur : Ptr) (w : World)
    (h : num ≤ MAX_OBJECTS) :
    build_list_first num (some cur) w
      = (SUCCESS, some (malloc { w with errno := 0 }).1, (malloc { w with errno := 0 }).2) := by
  unfold build_list_first
  simp [Nat.not_lt.2 h]

/-- The function `build_list` up to its `for` loop when the first `malloc`
returns a block, whatever it leaves in `errno`. -/
theorem build_list_of_block (num : Nat) (cur : Ptr) (w : World) (init : value_t)
    (err : Option Int) (h : num ≤ MAX_OBJECTS)
    (hm : w.mallocs w.nmalloc = MallocResult.block init err) :
    build_list num (some cur) w
      = (build_list_loop num (num - 1) (w.brk + 1) (first_node_state w err)).bind fun l =>
          Outcome.ok (l.1, some (w.brk + 1), l.2) := by
  have hnull : w.brk + 1 ≠ NULL := by simp [NULL]
  unfold build_list
  rw [build_list_first_in_range num cur w h]
  simp only [malloc, hm, random, store_val, store_next, if_true]
  simp only [deref_of_ne_null hnull, Heap.set_same, Outcome.bind_ok, Heap.set_set]
  rfl

/-- The function `build_list` when the first `malloc` fails: the `NULL` it
returned is dereferenced. -/
theorem build_list_of_first_failure (num : Nat) (cur : Ptr) (w : World) (err : Option Int)
    (h : num ≤ MAX_OBJECTS) (hm : w.mallocs w.nmalloc = MallocResult.fails err) :
    build_list num (some cur) w = Outcome.fault := by
  unfold build_list
  rw [build_list_first_in_range num cur w h]
  simp only [malloc, hm, random, store_val, if_true]
  rfl

/-- The function `build_list` for a valid pointer and a length above
`MAX_OBJECTS`: an error message and nothing else. -/
theorem build_list_of_too_many (num : Nat) (cur : Ptr) (w : World) (h : MAX_OBJECTS < num) :
    build_list num (some cur) w
      = Outcome.ok (INVALID_NUMBER, some cur,
          printf w (Out.text "Error: invalid number of objects in build_list\n")) := by
  unfold build_list build_list_first
  simp [h, INVALID_NUMBER, SUCCESS]

theorem deref_first_node_state (w : World) (err : Option Int) :
    deref (first_node_state w err).heap (w.brk + 1)
      = some ⟨Int.tmod (w.randoms w.nrandom) MAX_RANDOM + 1, NULL⟩ := by
  have hnull : w.brk + 1 ≠ NULL := by simp [NULL]
  show deref (w.heap.set (w.brk + 1) _) (w.brk + 1) = _
  rw [deref_of_ne_null hnull, Heap.set_same]

/-- The function `build_list` when the first `malloc` returns a block and the
loop takes every later `malloc` for a success, for any length of at most
`MAX_OBJECTS` (zero included, which builds one node): the list built, in
draw order, and what else is left unchanged. -/
theorem build_list_all_blocks (num : Nat) (cur : Ptr) (w : World) (h : num ≤ MAX_OBJECTS)
    (h0 : (w.mallocs w.nmalloc).succeeds = true)
    (hm : ∀ j, j < num - 1 → (w.mallocs (w.nmalloc + (j + 1))).passes = true) :
    ∃ w', build_list num (some cur) w = Outcome.ok (SUCCESS, some (w.brk + 1), w') ∧
      isList w'.heap (w.brk + 1) (drawn_vals w (num - 1 + 1)) ∧
      (∀ q : Nat, q ≤ w.brk → w'.heap q = w.heap q) ∧
      w'.out = w.out ∧ w'.frees = w.frees ∧ w'.nrandom = w.nrandom + (num - 1 + 1) ∧
      w'.nmalloc = w.nmalloc + (num - 1 + 1) ∧ w'.brk = w.brk + (num - 1 + 1) ∧
      w'.randoms = w.randoms ∧ w'.mallocs = w.mallocs := by
  obtain ⟨init, err, hinit⟩ := succeeds_block h0
  have hm2 : ∀ j, j < num - 1 →
      ((first_node_state w err).mallocs
        ((first_node_state w err).nmalloc + j)).passes = true := by
    intro j hj
    have := hm j hj
    show (w.mallocs (w.nmalloc + 1 + j)).passes = true
    rw [Nat.add_assoc, Nat.add_comm 1 j]
    exact this
  obtain ⟨w', hrun, hlist, hframe, hout, hfrees, hnr, hnm, hbrk, hrs, hms⟩ :=
    build_list_loop_ok num (num - 1) (w.brk + 1) (first_node_state w err) _
      (deref_first_node_state w err) rfl (le_refl _) hm2
  refine ⟨w', ?_, ?_, ?_, hout, hfrees, ?_, ?_, ?_, hrs, hms⟩
  · rw [build_list_of_block num cur w init err h hinit, hrun]; rfl
  · rw [drawn_vals_succ]; exact hlist
  · intro q hq
    have hq2 : q ≠ w.brk + 1 := by omega
    rw [hframe q (by show q ≤ w.brk + 1; omega) hq2]
    show (w.heap.set (w.brk + 1) _) q = _
    rw [Heap.set_other _ _ hq2]
  · rw [hnr]; show w.nrandom + 1 + (num - 1) = _; omega
  · rw [hnm]; show w.nmalloc + 1 + (num - 1) = _; omega
  · rw [hbrk]; show w.brk + 1 + (num - 1) = _; omega

/-- The function `build_list` when the first `malloc` returns a block and the
`malloc` of iteration `j` (from 0) of the loop is the first the loop takes
for a failure: a non-zero code, and `*start` is the list of the `j + 1`
nodes built so far. -/
theorem build_list_later_failure (num : Nat) (cur : Ptr) (w : World) (j : Nat)
    (h : num ≤ MAX_OBJECTS) (hj : j < num - 1)
    (h0 : (w.mallocs w.nmalloc).succeeds = true)
    (hm : ∀ i, i < j → (w.mallocs (w.nmalloc + (i + 1))).passes = true)
    (hfail : (w.mallocs (w.nmalloc + (j + 1))).passes = false) :
    ∃ w', build_list num (some cur) w
        = Outcome.ok (alloc_error_code (w.mallocs (w.nmalloc + (j + 1))).err,
            some (w.brk + 1), w') ∧
      isList w'.heap (w.brk + 1) (drawn_vals w (j + 1)) ∧
      (∀ q : Nat, q ≤ w.brk → w'.heap q = w.heap q) ∧
      w'.out = w.out ++ [Out.struct_error num] ∧ w'.frees = w.frees ∧
      w'.nrandom = w.nrandom + (j + 1) ∧ w'.nmalloc = w.nmalloc + (j + 2) ∧
      w'.brk = w.brk + (j + 1)
        + (if (w.mallocs (w.nmalloc + (j + 1))).succeeds = true then 1 else 0) ∧
      w'.errno = (w.mallocs (w.nmalloc + (j + 1))).err.getD SUCCESS := by
  obtain ⟨init, err, hinit⟩ := succeeds_block h0
  have hidx : ∀ i, w.nmalloc + 1 + i = w.nmalloc + (i + 1) := by intro i; omega
  have hm2 : ∀ i, i < j →
      ((first_node_state w err).mallocs
        ((first_node_state w err).nmalloc + i)).passes = true := by
    intro i hi
    show (w.mallocs (w.nmalloc + 1 + i)).passes = true
    rw [hidx]
    exact hm i hi
  have hmeq : (first_node_state w err).mallocs ((first_node_state w err).nmalloc + j)
      = w.mallocs (w.nmalloc + (j + 1)) := by
    show w.mallocs (w.nmalloc + 1 + j) = _
    rw [hidx]
  have hfail2 : ((first_node_state w err).mallocs
      ((first_node_state w err).nmalloc + j)).passes = false := by
    rw [hmeq]; exact hfail
  obtain ⟨w', hrun, hlist, hframe, hout, hfrees, hnr, hnm, hbrk, herrno⟩ :=
    build_list_loop_fail num j (num - 1) (w.brk + 1) (first_node_state w err) _
      (deref_first_node_state w err) rfl (le_refl _) hj hm2 hfail2
  rw [hmeq] at hrun hbrk herrno
  refine ⟨w', ?_, ?_, ?_, hout, hfrees, ?_, ?_, ?_, herrno⟩
  · rw [build_list_of_block num cur w init err h hinit, hrun]; rfl
  · rw [drawn_vals_succ]; exact hlist
  · intro q hq
    have hq2 : q ≠ w.brk + 1 := by omega
    rw [hframe q (by show q ≤ w.brk + 1; omega) hq2]
    show (w.heap.set (w.brk + 1) _) q = _
    rw [Heap.set_other _ _ hq2]
  · rw [hnr]; show w.nrandom + 1 + j = _; omega
  · rw [hnm]; show w.nmalloc + 1 + j + 1 = _; omega
  · rw [hbrk]; show w.brk + 1 + j + _ = _; omega

/-! ## The outcomes of `build_list` -/

/-- Among the first `k` calls either all succeed or there is a first failure. -/
theorem first_failure (f : Nat → Bool) :
    ∀ k : Nat, (∀ j, j < k → f j = true) ∨
      ∃ j, j < k ∧ (∀ i, i < j → f i = true) ∧ f j = false := by
  intro k
  induction k with
  | zero => exact Or.inl (fun j hj => absurd hj (Nat.not_lt_zero j))
  | succ k ih =>
    rcases ih with hall | ⟨j, hj, hbelow, hfj⟩
    · cases hk : f k with
      | true =>
        refine Or.inl (fun j hj => ?_)
        rcases Nat.lt_succ_iff_lt_or_eq.1 hj with h | h
        · exact hall j h
        · rw [h]; exact hk
      | false => exact Or.inr ⟨k, Nat.lt_succ_self k, hall, hk⟩
    · exact Or.inr ⟨j, Nat.lt_succ_of_lt hj, hbelow, hfj⟩

/-- The three ways a call of `build_list` with a valid pointer and a length
of at most `MAX_OBJECTS` can go: the first `malloc` returns `NULL` and the
call faults; the first `malloc` returns a block, the loop takes every later
one for a success and the call returns `SUCCESS`; the loop takes a later
`malloc` for a failure and the call returns the code of that failure. -/
theorem build_list_cases (num : Nat) (cur : Ptr) (w : World) (h : num ≤ MAX_OBJECTS) :
    (∃ err, w.mallocs w.nmalloc = MallocResult.fails err ∧
      build_list num (some cur) w = Outcome.fault) ∨
    ((w.mallocs w.nmalloc).succeeds = true ∧
      (∀ j, j < num - 1 → (w.mallocs (w.nmalloc + (j + 1))).passes = true) ∧
      ∃ w', build_list num (some cur) w = Outcome.ok (SUCCESS, some (w.brk + 1), w')) ∨
    (∃ j w', j < num - 1 ∧ (w.mallocs w.nmalloc).succeeds = true ∧
      (∀ i, i < j → (w.mallocs (w.nmalloc + (i + 1))).passes = true) ∧
      (w.mallocs (w.nmalloc + (j + 1))).passes = false ∧
      build_list num (some cur) w
        = Outcome.ok (alloc_error_code (w.mallocs (w.nmalloc + (j + 1))).err,
            some (w.brk + 1), w') ∧
      w'.out = w.out ++ [Out.struct_error num] ∧ w'.frees = w.frees) := by
  cases hm0 : w.mallocs w.nmalloc with
  | fails err =>
    exact Or.inl ⟨err, rfl, build_list_of_first_failure num cur w err h hm0⟩
  | block init err =>
    have h0 : (w.mallocs w.nmalloc).succeeds = true := by rw [hm0]; rfl
    rw [← hm0]
    rcases first_failure (fun j => (w.mallocs (w.nmalloc + (j + 1))).passes) (num - 1)
      with hall | ⟨j, hj, hbelow, hfj⟩
    · obtain ⟨w', hrun, _⟩ := build_list_all_blocks num cur w h h0 hall
      exact Or.inr (Or.inl ⟨h0, hall, w', hrun⟩)
    · obtain ⟨w', hrun, _, _, hout, hfrees, _⟩ :=
        build_list_later_failure num cur w j h hj h0 hbelow hfj
      exact Or.inr (Or.inr ⟨j, w', hj, h0, hbelow, hfj, hrun, hout, hfrees⟩)

/-- A call of `build_list` that returns `SUCCESS` for a length of at most
`MAX_OBJECTS` had its first `malloc` return a block and its loop take every
later `malloc` for a success. -/
theorem build_list_success_inv (num : Nat) (cur : Ptr) (w w' : World) (st : Option Ptr)
    (h : num ≤ MAX_OBJECTS)
    (hb : build_list num (some cur) w = Outcome.ok (SUCCESS, st, w')) :
    (w.mallocs w.nmalloc).succeeds = true ∧
    ∀ j, j < num - 1 → (w.mallocs (w.nmalloc + (j + 1))).passes = true := by
  rcases build_list_cases num cur w h with
    ⟨_, _, hf⟩ | ⟨h0, hall, _⟩ | ⟨j, w2, _, _, _, _, hrun, _⟩
  · rw [hf] at hb
    exact absurd hb (by simp)
  · exact ⟨h0, hall⟩
  · rw [hrun] at hb
    have hcode : alloc_error_code (w.mallocs (w.nmalloc + (j + 1))).err = SUCCESS :=
      (Prod.mk.inj (Outcome.ok.inj hb)).1
    exact absurd hcode (alloc_error_code_ne_zero _)

/-! ## The teardown loop -/

theorem free_of_allocated (w : World) (p : Ptr) (c : value_t) (hp : p ≠ NULL)
    (hc : w.heap p = some c) :
    free w p = Outcome.ok { w with heap := w.heap.set p none, frees := w.frees ++ [p] } := by
  unfold free
  rw [if_neg hp, hc]

/-- The teardown loop on a non-empty list: with fuel for every node it ends,
prints nothing and calls `free` once per node. -/
theorem free_loop_spec (vals : List Int) :
    ∀ (fuel : Nat) (p : Ptr) (w : World), isList w.heap p vals → vals ≠ [] →
      vals.length ≤ fuel →
      ∃ w', free_loop fuel p w = Outcome.ok w' ∧ w'.out = w.out ∧
        w'.frees.length = w.frees.length + vals.length := by
  induction vals with
  | nil => intro _ _ _ _ hne; exact absurd rfl hne
  | cons v vs ih =>
    intro fuel p w hl _ hf
    obtain ⟨c, hc, hv, ht⟩ := (isList_cons w.heap p v vs).1 hl
    have hp := deref_eq_some hc
    obtain ⟨f, rfl⟩ : ∃ f, fuel = f + 1 := ⟨fuel - 1, by simp at hf; omega⟩
    unfold free_loop
    simp only [hc]
    cases vs with
    | nil =>
      have hnext : c.next = NULL := (isList_nil _ _).1 ht
      rw [if_neg (by simp [hnext]), free_of_allocated w p c hp.1 hp.2]
      exact ⟨_, rfl, rfl, by simp⟩
    | cons v2 vs2 =>
      have hn : c.next ≠ NULL := isList_ne_null ht (by simp)
      rw [if_pos hn, free_of_allocated w p c hp.1 hp.2, Outcome.bind_ok]
      obtain ⟨w', hrun, hout, hfr⟩ :=
        ih f c.next { w with heap := w.heap.set p none, frees := w.frees ++ [p] }
          (isList_tail_set_head hl ht none) (by simp) (by simp at hf ⊢; omega)
      refine ⟨w', hrun, hout, ?_⟩
      rw [hfr]
      simp
      omega

/-! ## `main` -/

/-- The length `main` computes from a non-negative value of `rand()`. -/
theorem main_num_of_nonneg (T : Target) (r : Int) (hr : 0 ≤ r) :
    main_num T r = (r % 19).toNat + 1 ∧ 1 ≤ main_num T r ∧ main_num T r ≤ MAX_OBJECTS := by
  have h16 : (2 : Int) ^ 16 ≤ (2 : Int) ^ T.int_bits :=
    pow_le_pow_right₀ (by norm_num) T.int_ok
  have hpow : (65536 : Int) ≤ (2 : Int) ^ T.int_bits := by
    have : (2 : Int) ^ 16 = 65536 := by norm_num
    omega
  have hmod : Int.tmod r 19 = r % 19 := Int.tmod_eq_emod hr (by norm_num)
  have h0 : 0 ≤ r % 19 := Int.emod_nonneg _ (by norm_num)
  have h1 : r % 19 < 19 := Int.emod_lt_of_pos _ (by norm_num)
  have hnum : main_num T r = (r % 19).toNat + 1 := by
    unfold main_num to_unsigned
    have hcast : ((MAX_OBJECTS : Nat) : Int) = 19 := rfl
    rw [hcast, hmod, Int.emod_eq_of_lt (by omega) (by omega)]
    omega
  refine ⟨hnum, ?_, ?_⟩
  · omega
  · rw [hnum]; unfold MAX_OBJECTS; omega

/-- The run of `main` once `build_list` has returned a non-zero code: the
message of the build stage is printed, no other stage runs and the code is
returned. -/
theorem main_after_build_error (T : Target) (fuel : Nat) (r : Int) (w w1 : World)
    (res : Int) (st : Option Ptr)
    (hb : build_list (main_num T r) (some NULL) (printf w (Out.length_line (main_num T r)))
            = Outcome.ok (res, st, w1))
    (hres : res ≠ SUCCESS) :
    main T fuel r w
      = Outcome.ok (res, printf w1 (Out.text "Error: problem building list\n")) := by
  unfold main
  simp only [hb, Outcome.bind_ok, ne_eq, hres, not_false_eq_true, if_true, if_false]

/-- The run of `main` when `build_list` faults. -/
theorem main_after_build_fault (T : Target) (fuel : Nat) (r : Int) (w : World)
    (hb : build_list (main_num T r) (some NULL) (printf w (Out.length_line (main_num T r)))
            = Outcome.fault) :
    main T fuel r w = Outcome.fault := by
  unfold main
  simp only [hb, Outcome.bind_fault]

/-! ## Bounds on the values drawn -/

theorem drawn_vals_bounds (w : World) (k : Nat) (hr : ∀ i, 0 ≤ w.randoms i) :
    ∀ v ∈ drawn_vals w k, 1 ≤ v ∧ v ≤ 50 := by
  intro v hv
  unfold drawn_vals at hv
  obtain ⟨j, _, rfl⟩ := List.mem_map.1 hv
  have h0 : 0 ≤ Int.tmod (w.randoms (w.nrandom + j)) MAX_RANDOM := Int.tmod_nonneg _ (hr _)
  have h1 : Int.tmod (w.randoms (w.nrandom + j)) MAX_RANDOM < MAX_RANDOM :=
    Int.tmod_lt_of_pos _ (by decide)
  unfold MAX_RANDOM at h0 h1 ⊢
  constructor <;> omega

theorem sum_bounds (l : List Int) (h : ∀ v ∈ l, 1 ≤ v ∧ v ≤ 50) :
    (l.length : Int) ≤ l.sum ∧ l.sum ≤ 50 * l.length := by
  induction l with
  | nil => simp
  | cons v vs ih =>
    have hv := h v (List.mem_cons_self v vs)
    have := ih (fun x hx => h x (List.mem_cons_of_mem v hx))
    simp only [List.sum_cons, List.length_cons]
    push_cast
    constructor <;> omega

theorem in_int_range_of_small (T : Target) (x : Int) (h0 : -32768 ≤ x) (h1 : x < 32768) :
    in_signed_range T.int_bits x := by
  apply in_signed_range_mono T.int_ok
  unfold in_signed_range
  norm_num
  exact ⟨h0, h1⟩

theorem in_long_range_of_small (T : Target) (x : Int) (h0 : -2147483648 ≤ x)
    (h1 : x < 2147483648) : in_signed_range T.long_bits x := by
  apply in_signed_range_mono T.long_ok
  unfold in_signed_range
  norm_num
  exact ⟨h0, h1⟩

/-! ## The claims of the specification -/

/-- C2: for every `num > 19` and every valid `start`, `build_list` returns
`INVALID_NUMBER` (-4), prints its message and does nothing else: no node is
allocated, `malloc` and `random()` are not called and `*start` is as it was. -/
theorem build_list_rejects_above_max (num : Nat) (cur : Ptr) (w : World) (h : 19 < num) :
    ∃ w', build_list num (some cur) w = Outcome.ok (INVALID_NUMBER, some cur, w') ∧
      INVALID_NUMBER = -4 ∧ w'.heap = w.heap ∧ w'.brk = w.brk ∧ w'.nmalloc = w.nmalloc ∧
      w'.nrandom = w.nrandom ∧ w'.frees = w.frees ∧
      w'.out = w.out ++ [Out.text "Error: invalid number of objects in build_list\n"] :=
  ⟨_, build_list_of_too_many num cur w h, rfl, rfl, rfl, rfl, rfl, rfl, rfl⟩

/-- Witness of C2: the length 20, with `*start` holding the address 7. -/
theorem build_list_rejects_above_max_witness :
    ∃ w', build_list 20 (some 7) (World.of_list [3, 10, 7])
        = Outcome.ok (INVALID_NUMBER, some 7, w') ∧
      INVALID_NUMBER = -4 ∧ w'.heap = (World.of_list [3, 10, 7]).heap ∧
      w'.brk = (World.of_list [3, 10, 7]).brk ∧
      w'.nmalloc = (World.of_list [3, 10, 7]).nmalloc ∧
      w'.nrandom = (World.of_list [3, 10, 7]).nrandom ∧
      w'.frees = (World.of_list [3, 10, 7]).frees ∧
      w'.out = (World.of_list [3, 10, 7]).out
        ++ [Out.text "Error: invalid number of objects in build_list\n"] :=
  build_list_rejects_above_max 20 7 (World.of_list [3, 10, 7]) (by decide)

/-- C3, as the code behaves: for `num = 0` and a valid `start`, when `malloc`
returns a block `build_list` returns `SUCCESS`, not `INVALID_NUMBER`: it
allocates one node, draws one random value for it and sets `*start` to that
one-node list. -/
theorem build_list_zero_builds_one_node (cur : Ptr) (w : World)
    (hm : (w.mallocs w.nmalloc).succeeds = true) :
    ∃ w', build_list 0 (some cur) w = Outcome.ok (SUCCESS, some (w.brk + 1), w') ∧
      SUCCESS ≠ INVALID_NUMBER ∧
      isList w'.heap (w.brk + 1) [Int.tmod (w.randoms w.nrandom) MAX_RANDOM + 1] ∧
      w'.nmalloc = w.nmalloc + 1 ∧ w'.nrandom = w.nrandom + 1 ∧ w'.out = w.out := by
  obtain ⟨w', hrun, hlist, _, hout, _, hnr, hnm, _⟩ :=
    build_list_all_blocks 0 cur w (Nat.zero_le _) hm
      (fun j hj => absurd hj (Nat.not_lt_zero j))
  refine ⟨w', hrun, by decide, ?_, hnm, hnr, hout⟩
  have hd : drawn_vals w (0 - 1 + 1) = [Int.tmod (w.randoms w.nrandom) MAX_RANDOM + 1] := rfl
  rw [hd] at hlist
  exact hlist

/-- Witness of C3: the length 0 at the start of a process. -/
theorem build_list_zero_builds_one_node_witness :
    ∃ w', build_list 0 (some NULL)
          (World.init (fun _ => MallocResult.block ⟨0, 0⟩ none) (fun _ => 122))
        = Outcome.ok (SUCCESS, some 1, w') ∧
      SUCCESS ≠ INVALID_NUMBER ∧ isList w'.heap 1 [Int.tmod 122 MAX_RANDOM + 1] ∧
      w'.nmalloc = 1 ∧ w'.nrandom = 1 ∧ w'.out = [] :=
  build_list_zero_builds_one_node NULL
    (World.init (fun _ => MallocResult.block ⟨0, 0⟩ none) (fun _ => 122)) rfl

/-- C7, as the code behaves: for every `num` of at most 19 and a valid
`start`, when the first `malloc` fails `build_list` does not return a code:
both checks after the call test `start` instead of `*start`, `result` stays
`SUCCESS` and the `NULL` in `*start` is dereferenced. -/
theorem build_list_first_malloc_failure_faults (num : Nat) (cur : Ptr) (w : World)
    (err : Option Int) (h : num ≤ 19)
    (hm : w.mallocs w.nmalloc = MallocResult.fails err) :
    build_list num (some cur) w = Outcome.fault :=
  build_list_of_first_failure num cur w err h hm

/-- Witness of C7: one node asked for, `malloc` fails with `errno` 12. -/
theorem build_list_first_malloc_failure_faults_witness :
    build_list 1 (some NULL)
        (World.init (fun _ => MallocResult.fails (some 12)) (fun _ => 0))
      = Outcome.fault :=
  build_list_first_malloc_failure_faults 1 NULL
    (World.init (fun _ => MallocResult.fails (some 12)) (fun _ => 0)) (some 12)
    (by decide) rfl

/-- C8, as the code behaves: on its failure paths `build_list` does not set
`*start` to `NULL`. With `num = 20` and `*start` holding the address 7 it
returns `INVALID_NUMBER` and `*start` still holds 7; with `num = 3` and the
second `malloc` failing it returns 12 and `*start` holds the address 1 of
the node built before the failure. -/
theorem build_list_failure_start_not_null :
    (∃ w', build_list 20 (some 7) (World.of_list [3, 10, 7])
        = Outcome.ok (INVALID_NUMBER, some 7, w')) ∧
    (∃ w', build_list 3 (some NULL)
          (World.init
            (fun i => if i = 1 then MallocResult.fails (some 12)
                      else MallocResult.block ⟨0, 0⟩ none)
            (fun _ => 0))
        = Outcome.ok (12, some 1, w') ∧ isList w'.heap 1 [1]) ∧
    (7 : Ptr) ≠ NULL ∧ (1 : Ptr) ≠ NULL := by
  refine ⟨⟨_, build_list_of_too_many 20 7 _ (by decide)⟩, ?_, by decide, by decide⟩
  obtain ⟨w', hrun, hlist, _⟩ :=
    build_list_later_failure 3 NULL
      (World.init
        (fun i => if i = 1 then MallocResult.fails (some 12) else MallocResult.block ⟨0, 0⟩ none)
        (fun _ => 0))
      0 (by decide) (by decide) rfl (fun i hi => absurd hi (Nat.not_lt_zero i)) rfl
  exact ⟨w', hrun, hlist⟩

/-- C4 fails as stated: on the 64-bit target the two-node list
`[9223372036854775807, 1]` of `long int` values, summed from 0, leaves
`-9223372036854775808` in `*total`, while the exact sum is
`9223372036854775808`. -/
theorem calc_total_not_exact_sum :
    isList (heap_of_list [9223372036854775807, 1]) 1 [9223372036854775807, 1] ∧
    in_signed_range LP64.long_bits 9223372036854775807 ∧
    in_signed_range LP64.long_bits 1 ∧
    calc_total LP64 2 (heap_of_list [9223372036854775807, 1]) 1 0
      = Outcome.ok (SUCCESS, -9223372036854775808) ∧
    ([9223372036854775807, 1] : List Int).sum = 9223372036854775808 ∧
    (-9223372036854775808 : Int) ≠ 9223372036854775808 := by
  refine ⟨by decide, by decide, by decide, by decide, by decide, by decide⟩

/-- C4, amended: for every non-empty list whose exact sum fits `long int`,
`calc_total` called with `*total = 0` returns `SUCCESS` and leaves the exact
sum of the values, as `List.sum` computes it, in `*total`. -/
theorem calc_total_exact_sum (T : Target) (fuel : Nat) (h : Heap) (start : Ptr)
    (vals : List Int) (hl : isList h start vals) (hne : vals ≠ [])
    (hf : vals.length ≤ fuel) (hfit : in_signed_range T.long_bits vals.sum) :
    calc_total T fuel h start 0 = Outcome.ok (SUCCESS, vals.sum) ∧ SUCCESS = 0 := by
  refine ⟨?_, rfl⟩
  rw [calc_total_spec T fuel h start vals 0 hl hf, if_neg hne, Int.zero_add,
    wrap_signed_of_range _ _ hfit]

/-- Witness of C4 amended: the list `[3, 10, 7]` gives 20. -/
theorem calc_total_exact_sum_witness :
    calc_total LP64 3 (heap_of_list [3, 10, 7]) 1 0 = Outcome.ok (SUCCESS, 20) ∧ SUCCESS = 0 :=
  calc_total_exact_sum LP64 3 (heap_of_list [3, 10, 7]) 1 [3, 10, 7]
    (by decide) (by decide) (by decide) (by decide)

/-- C10: for two lists that are permutations of each other and the same
initial `*total`, `calc_total` returns the same code and leaves the same
value in `*total`. -/
theorem calc_total_perm (T : Target) (fuel1 fuel2 : Nat) (h1 h2 : Heap) (s1 s2 : Ptr)
    (l1 l2 : List Int) (total : Int) (hl1 : isList h1 s1 l1) (hl2 : isList h2 s2 l2)
    (hp : l1.Perm l2) (hf1 : l1.length ≤ fuel1) (hf2 : l2.length ≤ fuel2) :
    calc_total T fuel1 h1 s1 total = calc_total T fuel2 h2 s2 total := by
  rw [calc_total_spec T fuel1 h1 s1 l1 total hl1 hf1,
    calc_total_spec T fuel2 h2 s2 l2 total hl2 hf2, hp.sum_eq]
  by_cases hnil : l1 = []
  · have : l2 = [] := by
      rw [hnil] at hp
      exact List.Perm.eq_nil (List.Perm.symm hp)
    rw [if_pos hnil, if_pos this]
  · have : l2 ≠ [] := by
      intro h2nil
      rw [h2nil] at hp
      exact hnil (List.Perm.eq_nil hp)
    rw [if_neg hnil, if_neg this]

/-- Witness of C10: the lists `[3, 10, 7]` and `[7, 3, 10]`, summed from 5. -/
theorem calc_total_perm_witness :
    calc_total LP64 3 (heap_of_list [3, 10, 7]) 1 5
      = calc_total LP64 4 (heap_of_list [7, 3, 10]) 1 5 :=
  calc_total_perm LP64 3 4 (heap_of_list [3, 10, 7]) (heap_of_list [7, 3, 10]) 1 1
    [3, 10, 7] [7, 3, 10] 5 (by decide) (by decide) (by decide) (by decide) (by decide)

/-- The lines `print_list` leaves for the example heap of a non-empty list:
line `i` (from 0) carries the `int` counter after `i` increments. -/
theorem print_list_of_list (T : Target) (vals : List Int) (hne : vals ≠ []) (i : Nat)
    (v : Int) (hv : vals[i]? = some v) :
    ∃ w', print_list T vals.length (World.of_list vals) 1 = Outcome.ok (SUCCESS, w') ∧
      w'.out.length = vals.length ∧
      w'.out[i]? = some (Out.number_line (wrap_signed T.int_bits (1 + i)) v) := by
  have hl : isList (World.of_list vals).heap 1 vals := isList_heap_of_list vals hne
  obtain ⟨hi, hvi⟩ := List.getElem?_eq_some_iff.1 hv
  refine ⟨{ World.of_list vals with
            out := (World.of_list vals).out ++ counted_lines T 1 vals }, ?_, ?_, ?_⟩
  · rw [print_list_spec T vals.length (World.of_list vals) 1 vals hl (le_refl _), if_neg hne]
  · show ([] ++ counted_lines T 1 vals).length = _
    rw [List.nil_append, counted_lines_length]
  · show ([] ++ counted_lines T 1 vals)[i]? = _
    rw [List.nil_append, ← hvi]
    exact counted_lines_getElem? T vals 1 i hi
      (in_int_range_of_small T 1 (by norm_num) (by norm_num))

theorem isList_of_list (vals : List Int) (hne : vals ≠ []) :
    isList (World.of_list vals).heap 1 vals :=
  isList_heap_of_list vals hne

theorem many_zeros_length : many_zeros.length = 2147483648 := by
  unfold many_zeros
  exact List.length_replicate _ _

/-- C5 fails as stated: on the 64-bit target (32-bit `int`), for the list of
2147483648 zeros `print_list` returns `SUCCESS` and prints 2147483648 lines,
but its last line, the 2147483648-th, carries the label -2147483648: the
`int` counter `number` has wrapped. -/
theorem print_list_label_wraps :
    isList (World.of_list many_zeros).heap 1 many_zeros ∧
    many_zeros.length = 2147483648 ∧
    ∃ w', print_list LP64 2147483648 (World.of_list many_zeros) 1
        = Outcome.ok (SUCCESS, w') ∧
      w'.out.length = 2147483648 ∧
      w'.out[2147483647]? = some (Out.number_line (-2147483648) 0) ∧
      Out.number_line (-2147483648) 0 ≠ Out.number_line 2147483648 0 := by
  have hlen := many_zeros_length
  have hne : many_zeros ≠ [] :=
    List.ne_nil_of_length_pos (by rw [hlen]; omega)
  have hval : many_zeros[2147483647]? = some 0 := by
    unfold many_zeros
    exact List.getElem?_replicate_of_lt (by omega)
  have hwrap : wrap_signed LP64.int_bits (1 + ((2147483647 : Nat) : Int)) = -2147483648 := by
    decide
  have hdiff : Out.number_line (-2147483648) 0 ≠ Out.number_line 2147483648 0 := by
    decide
  obtain ⟨w', hrun, hlen', hget⟩ := print_list_of_list LP64 many_zeros hne 2147483647 0 hval
  rw [hwrap] at hget
  rw [hlen] at hrun hlen'
  exact ⟨isList_of_list many_zeros hne, hlen, w', hrun, hlen', hget, hdiff⟩

/-- C5, amended: for every non-empty list of `n` values with `n` at most the
largest `int`, `print_list` returns `SUCCESS` and prints exactly `n` lines,
the `i`-th of which (from 1) carries the label `i` and the `i`-th value of
the list. -/
theorem print_list_labels (T : Target) (fuel : Nat) (w : World) (start : Ptr)
    (vals : List Int) (hl : isList w.heap start vals) (hne : vals ≠ [])
    (hf : vals.length ≤ fuel) (hn : in_signed_range T.int_bits vals.length) :
    ∃ lines, print_list T fuel w start
        = Outcome.ok (SUCCESS, { w with out := w.out ++ lines }) ∧
      SUCCESS = 0 ∧ lines.length = vals.length ∧
      ∀ (i : Nat) (hi : i < vals.length),
        lines[i]? = some (Out.number_line ((i : Int) + 1) vals[i]) := by
  have hpos : 0 < vals.length := List.length_pos.2 hne
  have h1 : in_signed_range T.int_bits 1 :=
    in_int_range_of_small T 1 (by norm_num) (by norm_num)
  have hlast : in_signed_range T.int_bits (1 + (vals.length : Int) - 1) := by
    have : (1 : Int) + (vals.length : Int) - 1 = vals.length := by ring
    rw [this]; exact hn
  refine ⟨number_lines 1 vals, ?_, rfl, number_lines_length vals 1, ?_⟩
  · rw [print_list_spec T fuel w start vals hl hf, if_neg hne,
      counted_lines_eq_number_lines T vals 1 h1 hlast]
  · intro i hi
    rw [number_lines_getElem? vals 1 i hi, add_comm]

/-- Witness of C5 amended: the list `[3, 10, 7]`. -/
theorem print_list_labels_witness :
    ∃ lines, print_list LP64 3 (World.of_list [3, 10, 7]) 1
        = Outcome.ok (SUCCESS,
            { World.of_list [3, 10, 7] with
              out := (World.of_list [3, 10, 7]).out ++ lines }) ∧
      SUCCESS = 0 ∧ lines.length = ([3, 10, 7] : List Int).length ∧
      ∀ (i : Nat) (hi : i < ([3, 10, 7] : List Int).length),
        lines[i]? = some (Out.number_line ((i : Int) + 1) ([3, 10, 7] : List Int)[i]) :=
  print_list_labels LP64 3 (World.of_list [3, 10, 7]) 1 [3, 10, 7]
    (by decide) (by decide) (by decide) (by decide)

/-- The value `main` returns and the state it leaves, from the results of
its four stages when all of them succeed. -/
theorem main_of_stages (T : Target) (fuel : Nat) (r : Int) (w w1 w2 w' : World)
    (start : Ptr) (t : Int)
    (hb : build_list (main_num T r) (some NULL) (printf w (Out.length_line (main_num T r)))
            = Outcome.ok (SUCCESS, some start, w1))
    (hc : calc_total T fuel w1.heap start 0 = Outcome.ok (SUCCESS, t))
    (hp : print_list T fuel w1 start = Outcome.ok (SUCCESS, w2))
    (hfree : free_loop fuel start (printf w2 (Out.total_line t)) = Outcome.ok w') :
    main T fuel r w = Outcome.ok (SUCCESS, w') := by
  unfold main
  simp only [hb, Outcome.bind_ok, Option.getD_some, ne_eq, not_true_eq_false, if_false]
  rw [hc]
  simp only [Outcome.bind_ok, ne_eq, not_true_eq_false, if_false, if_true]
  rw [hp]
  simp only [Outcome.bind_ok, ne_eq, not_true_eq_false, if_false, if_true]
  rw [hfree]
  rfl

/-- Every run of `main` with fuel for `MAX_OBJECTS` nodes, by the outcome of
its call of `build_list`: a fault; a non-zero code, which `main` returns
after the message of the build stage; or `SUCCESS`, after which `calc_total`
and `print_list` return `SUCCESS` too, the total is printed and the list is
released. -/
theorem main_cases (T : Target) (fuel : Nat) (r : Int) (w : World)
    (hf : MAX_OBJECTS ≤ fuel) :
    (build_list (main_num T r) (some NULL) (printf w (Out.length_line (main_num T r)))
        = Outcome.fault ∧
      main T fuel r w = Outcome.fault) ∨
    (∃ res st w1 msg,
      build_list (main_num T r) (some NULL) (printf w (Out.length_line (main_num T r)))
        = Outcome.ok (res, st, w1) ∧
      res ≠ SUCCESS ∧
      w1.out = w.out ++ [Out.length_line (main_num T r), msg] ∧
      (msg = Out.text "Error: invalid number of objects in build_list\n" ∨
        msg = Out.struct_error (main_num T r)) ∧
      w1.frees = w.frees ∧
      main T fuel r w
        = Outcome.ok (res, printf w1 (Out.text "Error: problem building list\n"))) ∨
    (∃ start w1 vals t w2 w',
      build_list (main_num T r) (some NULL) (printf w (Out.length_line (main_num T r)))
        = Outcome.ok (SUCCESS, some start, w1) ∧
      isList w1.heap start vals ∧ vals ≠ [] ∧
      calc_total T fuel w1.heap start 0 = Outcome.ok (SUCCESS, t) ∧
      print_list T fuel w1 start = Outcome.ok (SUCCESS, w2) ∧
      free_loop fuel start (printf w2 (Out.total_line t)) = Outcome.ok w' ∧
      main T fuel r w = Outcome.ok (SUCCESS, w') ∧
      w1.out = w.out ++ [Out.length_line (main_num T r)] ∧
      w2.out = w1.out ++ counted_lines T 1 vals ∧
      w'.out = w2.out ++ [Out.total_line t]) := by
  by_cases hbig : MAX_OBJECTS < main_num T r
  · have hb := build_list_of_too_many (main_num T r) NULL
      (printf w (Out.length_line (main_num T r))) hbig
    refine Or.inr (Or.inl ⟨INVALID_NUMBER, _, _, _, hb, by decide, ?_, Or.inl rfl, rfl,
      main_after_build_error T fuel r w _ _ _ hb (by decide)⟩)
    simp [printf]
  · have hle : main_num T r ≤ MAX_OBJECTS := Nat.le_of_not_lt hbig
    rcases build_list_cases (main_num T r) NULL (printf w (Out.length_line (main_num T r)))
        hle with ⟨_, _, hfault⟩ | ⟨h0, hall, _⟩ | ⟨j, w1, _, _, _, _, hb, hout, hfrees⟩
    · exact Or.inl ⟨hfault, main_after_build_fault T fuel r w hfault⟩
    · obtain ⟨w1, hb, hlist, _, hout, _⟩ :=
        build_list_all_blocks (main_num T r) NULL
          (printf w (Out.length_line (main_num T r))) hle h0 hall
      have hlen : (drawn_vals (printf w (Out.length_line (main_num T r)))
          (main_num T r - 1 + 1)).length = main_num T r - 1 + 1 := drawn_vals_length _ _
      generalize drawn_vals (printf w (Out.length_line (main_num T r)))
        (main_num T r - 1 + 1) = vals at hlist hlen
      have hne : vals ≠ [] := List.ne_nil_of_length_pos (by rw [hlen]; omega)
      have hfuel : vals.length ≤ fuel := by
        rw [hlen]; unfold MAX_OBJECTS at hle hf; omega
      have hc := calc_total_spec T fuel w1.heap _ vals 0 hlist hfuel
      rw [if_neg hne] at hc
      have hp := print_list_spec T fuel w1 _ vals hlist hfuel
      rw [if_neg hne] at hp
      obtain ⟨w', hfree, hout', _⟩ :=
        free_loop_spec vals fuel _
          (printf { w1 with out := w1.out ++ counted_lines T 1 vals }
            (Out.total_line (wrap_signed T.long_bits (0 + vals.sum))))
          hlist hne hfuel
      exact Or.inr (Or.inr ⟨_, w1, _, _, _, w', hb, hlist, hne, hc, hp, hfree,
        main_of_stages T fuel r w w1 _ w' _ _ hb hc hp hfree, hout, rfl, hout'⟩)
    · refine Or.inr (Or.inl ⟨_, _, w1, Out.struct_error (main_num T r), hb,
        alloc_error_code_ne_zero _, ?_, Or.inr rfl, hfrees,
        main_after_build_error T fuel r w _ _ _ hb (alloc_error_code_ne_zero _)⟩)
      rw [hout]
      simp [printf]

/-- C9: every run of `main` with fuel for 19 nodes goes one of three ways,
by the outcome of its first stage. Either `build_list` faults and so does
`main` (the runs `main` does not survive). Or `build_list` returns a
non-zero code: then `main` returns that code, the last thing it prints is
the message of the build stage, it prints no `Number` line and no `Total`
line and releases nothing. Or `build_list` returns 0: then `calc_total` and
`print_list` return 0 too, and `main` returns 0 having printed the lines of
`print_list` and then the `Total` line with the total of `calc_total`. In
every run that returns, the `Total` line is among the lines printed exactly
when the value returned is 0. -/
theorem main_total_iff_success (T : Target) (fuel : Nat) (r : Int) (w : World)
    (hf : 19 ≤ fuel) :
    ((build_list (main_num T r) (some NULL) (printf w (Out.length_line (main_num T r)))
          = Outcome.fault ∧
        main T fuel r w = Outcome.fault) ∨
      (∃ res st w1 emitted,
        build_list (main_num T r) (some NULL) (printf w (Out.length_line (main_num T r)))
          = Outcome.ok (res, st, w1) ∧
        res ≠ 0 ∧
        main T fuel r w
          = Outcome.ok (res, printf w1 (Out.text "Error: problem building list\n")) ∧
        (printf w1 (Out.text "Error: problem building list\n")).out = w.out ++ emitted ∧
        emitted.getLast? = some (Out.text "Error: problem building list\n") ∧
        (∀ n v, Out.number_line n v ∉ emitted) ∧ (∀ t, Out.total_line t ∉ emitted) ∧
        (printf w1 (Out.text "Error: problem building list\n")).frees = w.frees) ∨
      (∃ start w1 t w2 w',
        build_list (main_num T r) (some NULL) (printf w (Out.length_line (main_num T r)))
          = Outcome.ok (0, some start, w1) ∧
        calc_total T fuel w1.heap start 0 = Outcome.ok (0, t) ∧
        print_list T fuel w1 start = Outcome.ok (0, w2) ∧
        free_loop fuel start (printf w2 (Out.total_line t)) = Outcome.ok w' ∧
        main T fuel r w = Outcome.ok (0, w') ∧
        w'.out = w2.out ++ [Out.total_line t])) ∧
    (∀ res w', main T fuel r w = Outcome.ok (res, w') →
      ∃ emitted, w'.out = w.out ++ emitted ∧
        ((∃ t, Out.total_line t ∈ emitted) ↔ res = 0)) := by
  rcases main_cases T fuel r w hf with
    ⟨hbf, hmf⟩ | ⟨res, st, w1, msg, hb, hres, hout, hmsg, hfrees, hmain⟩ |
    ⟨start, w1, vals, t, w2, w', hb, _, _, hc, hp, hfree, hmain, hout1, hout2, hout'⟩
  · refine ⟨Or.inl ⟨hbf, hmf⟩, ?_⟩
    intro res w' h
    rw [hmf] at h
    exact absurd h (by simp)
  · have hemit : (printf w1 (Out.text "Error: problem building list\n")).out
        = w.out ++ [Out.length_line (main_num T r), msg,
                    Out.text "Error: problem building list\n"] := by
      show w1.out ++ _ = _
      rw [hout]
      simp
    have hnonum : ∀ n v, Out.number_line n v
        ∉ [Out.length_line (main_num T r), msg,
           Out.text "Error: problem building list\n"] := by
      intro n v
      rcases hmsg with rfl | rfl <;> simp
    have hnotot : ∀ t, Out.total_line t
        ∉ [Out.length_line (main_num T r), msg,
           Out.text "Error: problem building list\n"] := by
      intro t
      rcases hmsg with rfl | rfl <;> simp
    refine ⟨Or.inr (Or.inl ⟨res, st, w1, _, hb, hres, hmain, hemit, by simp, hnonum, hnotot,
      hfrees⟩), ?_⟩
    intro res2 w2 h
    rw [hmain] at h
    obtain ⟨hr2, hw2⟩ := Prod.mk.inj (Outcome.ok.inj h)
    subst hr2 hw2
    refine ⟨_, hemit, ?_⟩
    constructor
    · rintro ⟨t, ht⟩
      exact absurd ht (hnotot t)
    · intro h0
      exact absurd h0 hres
  · refine ⟨Or.inr (Or.inr ⟨start, w1, t, w2, w', hb, hc, hp, hfree, hmain, hout'⟩), ?_⟩
    intro res2 w3 h
    rw [hmain] at h
    obtain ⟨hr2, hw3⟩ := Prod.mk.inj (Outcome.ok.inj h)
    subst hr2 hw3
    refine ⟨[Out.length_line (main_num T r)] ++ (counted_lines T 1 vals ++ [Out.total_line t]),
      ?_, ?_⟩
    · rw [hout', hout2, hout1]
      simp
    · constructor
      · intro _; rfl
      · intro _
        exact ⟨t, by simp⟩

/-- Witness of C9: a run in which the second `malloc` fails. -/
theorem main_total_iff_success_witness :
    ((build_list (main_num LP64 23) (some NULL)
          (printf
            (World.init
              (fun i => if i = 1 then MallocResult.fails (some 12)
                        else MallocResult.block ⟨0, 0⟩ none)
              (fun _ => 0))
            (Out.length_line (main_num LP64 23)))
          = Outcome.fault ∧
        main LP64 19 23
          (World.init
            (fun i => if i = 1 then MallocResult.fails (some 12)
                      else MallocResult.block ⟨0, 0⟩ none)
            (fun _ => 0))
          = Outcome.fault) ∨
      (∃ res st w1 emitted,
        build_list (main_num LP64 23) (some NULL)
          (printf
            (World.init
              (fun i => if i = 1 then MallocResult.fails (some 12)
                        else MallocResult.block ⟨0, 0⟩ none)
              (fun _ => 0))
            (Out.length_line (main_num LP64 23)))
          = Outcome.ok (res, st, w1) ∧
        res ≠ 0 ∧
        main LP64 19 23
          (World.init
            (fun i => if i = 1 then MallocResult.fails (some 12)
                      else MallocResult.block ⟨0, 0⟩ none)
            (fun _ => 0))
          = Outcome.ok (res, printf w1 (Out.text "Error: problem building list\n")) ∧
        (printf w1 (Out.text "Error: problem building list\n")).out
          = (World.init
              (fun i => if i = 1 then MallocResult.fails (some 12)
                        else MallocResult.block ⟨0, 0⟩ none)
              (fun _ => 0)).out ++ emitted ∧
        emitted.getLast? = some (Out.text "Error: problem building list\n") ∧
        (∀ n v, Out.number_line n v ∉ emitted) ∧ (∀ t, Out.total_line t ∉ emitted) ∧
        (printf w1 (Out.text "Error: problem building list\n")).frees
          = (World.init
              (fun i => if i = 1 then MallocResult.fails (some 12)
                        else MallocResult.block ⟨0, 0⟩ none)
              (fun _ => 0)).frees) ∨
      (∃ start w1 t w2 w',
        build_list (main_num LP64 23) (some NULL)
          (printf
            (World.init
              (fun i => if i = 1 then MallocResult.fails (some 12)
                        else MallocResult.block ⟨0, 0⟩ none)
              (fun _ => 0))
            (Out.length_line (main_num LP64 23)))
          = Outcome.ok (0, some start, w1) ∧
        calc_total LP64 19 w1.heap start 0 = Outcome.ok (0, t) ∧
        print_list LP64 19 w1 start = Outcome.ok (0, w2) ∧
        free_loop 19 start (printf w2 (Out.total_line t)) = Outcome.ok w' ∧
        main LP64 19 23
          (World.init
            (fun i => if i = 1 then MallocResult.fails (some 12)
                      else MallocResult.block ⟨0, 0⟩ none)
            (fun _ => 0))
          = Outcome.ok (0, w') ∧
        w'.out = w2.out ++ [Out.total_line t])) ∧
    (∀ res w',
      main LP64 19 23
          (World.init
            (fun i => if i = 1 then MallocResult.fails (some 12)
                      else MallocResult.block ⟨0, 0⟩ none)
            (fun _ => 0))
        = Outcome.ok (res, w') →
      ∃ emitted,
        w'.out = (World.init
            (fun i => if i = 1 then MallocResult.fails (some 12)
                      else MallocResult.block ⟨0, 0⟩ none)
            (fun _ => 0)).out ++ emitted ∧
        ((∃ t, Out.total_line t ∈ emitted) ↔ res = 0)) :=
  main_total_iff_success LP64 19 23
    (World.init
      (fun i => if i = 1 then MallocResult.fails (some 12)
                else MallocResult.block ⟨0, 0⟩ none)
      (fun _ => 0))
    (by decide)

/-! ## The empty sequence -/

/-- C11: for the empty sequence (`start == NULL`) `calc_total` returns
`BAD_POINTER` (-3) and leaves `*total` as it was, whatever the heap, the
initial `*total` and the fuel. -/
theorem calc_total_null (T : Target) (fuel : Nat) (h : Heap) (total : Int) :
    calc_total T fuel h NULL total = Outcome.ok (BAD_POINTER, total) ∧ BAD_POINTER = -3 :=
  ⟨by unfold calc_total; rw [if_pos rfl], rfl⟩

/-- C12: for the empty sequence (`start == NULL`) `print_list` returns
`BAD_POINTER` (-3) and the state, its output included, is as it was: no
line is printed. -/
theorem print_list_null (T : Target) (fuel : Nat) (w : World) :
    print_list T fuel w NULL = Outcome.ok (BAD_POINTER, w) ∧ BAD_POINTER = -3 :=
  ⟨by unfold print_list; rw [if_pos rfl], rfl⟩

/-! ## The claims on the length, the failures and the order of the values -/

/-- C15: for every non-negative value `r` of `rand()` the length
`(r % MAX_OBJECTS) + 1` lies in `[1, 19]` and is the value of `num`, so `num`
is neither 0 nor above `MAX_OBJECTS`; the call of `build_list` in `main`
leaves its first checks with `result` at `SUCCESS`, and, `malloc` leaving no
negative value in `errno`, it does not return `INVALID_NUMBER`. -/
theorem main_length_in_range (T : Target) (r : Int) (hr : 0 ≤ r) :
    1 ≤ Int.tmod r MAX_OBJECTS + 1 ∧ Int.tmod r MAX_OBJECTS + 1 ≤ 19 ∧
    (main_num T r : Int) = Int.tmod r MAX_OBJECTS + 1 ∧
    main_num T r ≠ 0 ∧ main_num T r ≤ MAX_OBJECTS ∧
    (∀ w : World, (build_list_first (main_num T r) (some NULL) w).1 = SUCCESS) ∧
    (∀ w : World, (∀ i e, (w.mallocs i).err = some e → 0 ≤ e) →
      ∀ st w', build_list (main_num T r) (some NULL) w
        ≠ Outcome.ok (INVALID_NUMBER, st, w')) := by
  obtain ⟨hnum, hn1, hn19⟩ := main_num_of_nonneg T r hr
  have hcast : ((MAX_OBJECTS : Nat) : Int) = 19 := rfl
  have hmod : Int.tmod r 19 = r % 19 := Int.tmod_eq_emod hr (by norm_num)
  have h0 : 0 ≤ r % 19 := Int.emod_nonneg _ (by norm_num)
  have h1 : r % 19 < 19 := Int.emod_lt_of_pos _ (by norm_num)
  refine ⟨?_, ?_, ?_, ?_, hn19, ?_, ?_⟩
  · rw [hcast, hmod]; omega
  · rw [hcast, hmod]; omega
  · rw [hcast, hmod, hnum]; omega
  · omega
  · intro w
    rw [build_list_first_in_range _ _ _ hn19]
  · intro w hpos st w' hb
    rcases build_list_cases (main_num T r) NULL w hn19 with
      ⟨_, _, hf⟩ | ⟨_, _, w2, hrun⟩ | ⟨j, w2, _, _, _, _, hrun, _⟩
    · rw [hf] at hb
      exact absurd hb (by simp)
    · rw [hrun] at hb
      have := (Prod.mk.inj (Outcome.ok.inj hb)).1
      exact absurd this (by decide)
    · rw [hrun] at hb
      have hcode : alloc_error_code (w.mallocs (w.nmalloc + (j + 1))).err = INVALID_NUMBER :=
        (Prod.mk.inj (Outcome.ok.inj hb)).1
      cases herr : (w.mallocs (w.nmalloc + (j + 1))).err with
      | none =>
        rw [herr] at hcode
        exact absurd hcode (by decide)
      | some e =>
        have he := hpos _ e herr
        rw [herr] at hcode
        unfold alloc_error_code INVALID_NUMBER GENERIC_ERROR SUCCESS at hcode
        simp only [Option.getD_some] at hcode
        split at hcode <;> omega

/-- Witness of C15: the value 23 of `rand()` gives the length 5. -/
theorem main_length_in_range_witness :
    1 ≤ Int.tmod 23 MAX_OBJECTS + 1 ∧ Int.tmod 23 MAX_OBJECTS + 1 ≤ 19 ∧
    (main_num LP64 23 : Int) = Int.tmod 23 MAX_OBJECTS + 1 ∧
    main_num LP64 23 ≠ 0 ∧ main_num LP64 23 ≤ MAX_OBJECTS ∧
    (∀ w : World, (build_list_first (main_num LP64 23) (some NULL) w).1 = SUCCESS) ∧
    (∀ w : World, (∀ i e, (w.mallocs i).err = some e → 0 ≤ e) →
      ∀ st w', build_list (main_num LP64 23) (some NULL) w
        ≠ Outcome.ok (INVALID_NUMBER, st, w')) :=
  main_length_in_range LP64 23 (by decide)

theorem wrap_signed_eq_iff (bits : Nat) (a b : Int) :
    wrap_signed bits a = wrap_signed bits b ↔ a % (2 : Int) ^ bits = b % (2 : Int) ^ bits := by
  constructor
  · intro h
    rw [← wrap_signed_emod bits a, ← wrap_signed_emod bits b, h]
  · exact wrap_signed_congr bits a b

/-- A value of the signed type that is a multiple of two to the width is 0. -/
theorem eq_zero_of_range_of_emod (bits : Nat) (t : Int) (hr : in_signed_range bits t)
    (hm : t % (2 : Int) ^ bits = 0) : t = 0 := by
  have hpos := two_pow_pos_int bits
  obtain ⟨hlo, hhi⟩ := hr
  apply Int.eq_zero_of_abs_lt_dvd (Int.dvd_of_emod_eq_zero hm)
  rw [abs_lt]
  constructor <;> omega

/-- C19: `calc_total` adds to `*total`: for every non-empty list and every
initial value `t0`, it returns `SUCCESS` and leaves `t0` plus the sum of the
values, reduced to the width of `long int`, in `*total`; for `t0` a `long int`
that is the total of the list alone exactly when `t0 = 0`. -/
theorem calc_total_accumulates (T : Target) (fuel : Nat) (h : Heap) (start : Ptr)
    (vals : List Int) (t0 : Int) (hl : isList h start vals) (hne : vals ≠ [])
    (hf : vals.length ≤ fuel) :
    calc_total T fuel h start t0
      = Outcome.ok (SUCCESS, wrap_signed T.long_bits (t0 + vals.sum)) ∧
    (in_signed_range T.long_bits t0 →
      (wrap_signed T.long_bits (t0 + vals.sum) = wrap_signed T.long_bits (0 + vals.sum)
        ↔ t0 = 0)) := by
  constructor
  · rw [calc_total_spec T fuel h start vals t0 hl hf, if_neg hne]
  · intro hr
    constructor
    · intro hw
      have hmod := (wrap_signed_eq_iff _ _ _).1 hw
      rw [Int.emod_eq_emod_iff_emod_sub_eq_zero] at hmod
      apply eq_zero_of_range_of_emod T.long_bits t0 hr
      have hsub : t0 + vals.sum - (0 + vals.sum) = t0 := by ring
      rw [hsub] at hmod
      exact hmod
    · intro h0
      rw [h0]

/-- Witness of C19: the list `[3, 10, 7]` summed from 5 gives 25. -/
theorem calc_total_accumulates_witness :
    calc_total LP64 3 (heap_of_list [3, 10, 7]) 1 5
      = Outcome.ok (SUCCESS, wrap_signed LP64.long_bits (5 + ([3, 10, 7] : List Int).sum)) ∧
    (in_signed_range LP64.long_bits 5 →
      (wrap_signed LP64.long_bits (5 + ([3, 10, 7] : List Int).sum)
          = wrap_signed LP64.long_bits (0 + ([3, 10, 7] : List Int).sum)
        ↔ (5 : Int) = 0)) :=
  calc_total_accumulates LP64 3 (heap_of_list [3, 10, 7]) 1 [3, 10, 7] 5
    (by decide) (by decide) (by decide)

/-! ## The running total of a built list -/

theorem running_sums_bounds (vals : List Int) (hv : ∀ v ∈ vals, 1 ≤ v ∧ v ≤ 50) :
    ∀ t : Int, ∀ x ∈ running_sums t vals, t + 1 ≤ x ∧ x ≤ t + 50 * vals.length := by
  induction vals with
  | nil => intro t x hx; simp [running_sums] at hx
  | cons v vs ih =>
    intro t x hx
    have hv0 := hv v (List.mem_cons_self v vs)
    simp only [running_sums, List.mem_cons] at hx
    simp only [List.length_cons]
    push_cast
    rcases hx with rfl | hx
    · constructor <;> omega
    · have := ih (fun y hy => hv y (List.mem_cons_of_mem v hy)) (t + v) x hx
      constructor <;> omega

theorem running_sums_getLast? (vals : List Int) (hne : vals ≠ []) :
    ∀ t : Int, (running_sums t vals).getLast? = some (t + vals.sum) := by
  induction vals with
  | nil => exact absurd rfl hne
  | cons v vs ih =>
    intro t
    cases vs with
    | nil => simp [running_sums]
    | cons v2 vs2 =>
      have h1 := ih (by simp) (t + v)
      have e1 : running_sums t (v :: v2 :: vs2)
          = (t + v) :: (t + v + v2) :: running_sums (t + v + v2) vs2 := rfl
      have e2 : running_sums (t + v) (v2 :: vs2)
          = (t + v + v2) :: running_sums (t + v + v2) vs2 := rfl
      rw [e1, List.getLast?_cons_cons, ← e2, h1, List.sum_cons, List.sum_cons, List.sum_cons]
      congr 1
      ring

/-- The value `calc_total` leaves in `*total` is the last one it assigned:
the recording loop is the loop of `calc_total`. -/
theorem calc_total_loop_eq_last_step (T : Target) (h : Heap) :
    ∀ (fuel : Nat) (start : Ptr) (t : Int),
      calc_total_loop T h fuel start t
        = (calc_total_steps T h fuel start t).bind fun l =>
            Outcome.ok (l.getLast?.getD t) := by
  intro fuel
  induction fuel with
  | zero => intro _ _; rfl
  | succ f ih =>
    intro start t
    unfold calc_total_loop calc_total_steps
    cases hd : deref h start with
    | none => rfl
    | some node =>
      simp only
      by_cases hn : node.next ≠ NULL
      · rw [if_pos hn, if_pos hn, ih]
        cases hs : calc_total_steps T h f node.next
            (wrap_signed T.long_bits (t + node.val)) with
        | ok rest =>
          cases rest with
          | nil => rfl
          | cons a as =>
            simp only [Outcome.bind_ok, List.getLast?_cons_cons]
            rw [List.getLast?_eq_getLast _ (List.cons_ne_nil a as)]
            rfl
        | fault => rfl
        | timeout => rfl
      · rw [if_neg hn, if_neg hn]
        rfl

/-- The values `calc_total` assigns to `*total`, when every exact running sum
fits `long int`: the exact running sums. -/
theorem calc_total_steps_exact (T : Target) (h : Heap) (vals : List Int) :
    ∀ (fuel : Nat) (start : Ptr) (t : Int), isList h start vals → vals ≠ [] →
      vals.length ≤ fuel →
      (∀ x ∈ running_sums t vals, in_signed_range T.long_bits x) →
      calc_total_steps T h fuel start t = Outcome.ok (running_sums t vals) := by
  induction vals with
  | nil => intro _ _ _ _ hne; exact absurd rfl hne
  | cons v vs ih =>
    intro fuel start t hl _ hf hfit
    obtain ⟨c, hc, hv, ht⟩ := (isList_cons h start v vs).1 hl
    obtain ⟨f, rfl⟩ : ∃ f, fuel = f + 1 := ⟨fuel - 1, by simp at hf; omega⟩
    have hhead : wrap_signed T.long_bits (t + v) = t + v :=
      wrap_signed_of_range _ _ (hfit _ (by simp [running_sums]))
    unfold calc_total_steps
    simp only [hc, hv, hhead]
    cases vs with
    | nil =>
      have : c.next = NULL := (isList_nil _ _).1 ht
      simp [this, running_sums]
    | cons v2 vs2 =>
      have hn : c.next ≠ NULL := isList_ne_null ht (by simp)
      rw [if_pos hn, ih f c.next (t + v) ht (by simp) (by simp at hf ⊢; omega)
        (fun x hx => hfit x (by
          rw [running_sums]
          exact List.mem_cons_of_mem _ hx))]
      simp [running_sums]

/-- C16: for every list a call of `build_list(num, ...)` with `1 ≤ num ≤ 19`
that returned `SUCCESS` has built (the `random()` results being
non-negative) and `*total` initially 0, the values `calc_total` assigns to
`*total` are the exact running sums, each lies in `[0, 50 * num]`, hence is
at most 950 and fits a 32-bit `long int`, and the final total is the exact
sum and is at least `num`: no addition wraps, on any target. -/
theorem calc_total_never_overflows (T : Target) (fuel num : Nat) (cur first : Ptr)
    (w w' : World) (h1 : 1 ≤ num) (h19 : num ≤ 19) (hr : ∀ i, 0 ≤ w.randoms i)
    (hb : build_list num (some cur) w = Outcome.ok (SUCCESS, some first, w'))
    (hf : num ≤ fuel) :
    ∃ vals, isList w'.heap first vals ∧ vals.length = num ∧
      calc_total_steps T w'.heap fuel first 0 = Outcome.ok (running_sums 0 vals) ∧
      (∀ t ∈ running_sums 0 vals,
        0 ≤ t ∧ t ≤ 50 * (num : Int) ∧ t ≤ 950 ∧ in_signed_range 32 t) ∧
      calc_total T fuel w'.heap first 0 = Outcome.ok (SUCCESS, vals.sum) ∧
      (running_sums 0 vals).getLast? = some vals.sum ∧
      (num : Int) ≤ vals.sum ∧ vals.sum ≤ 950 := by
  obtain ⟨h0, hall⟩ := build_list_success_inv num cur w w' (some first) h19 hb
  obtain ⟨w2, hrun, hlist, _⟩ := build_list_all_blocks num cur w h19 h0 hall
  rw [hrun] at hb
  have heq := Prod.mk.inj (Prod.mk.inj (Outcome.ok.inj hb)).2
  have hfirst : w.brk + 1 = first := Option.some.inj heq.1
  have hw : w2 = w' := heq.2
  subst hfirst hw
  have hn : num - 1 + 1 = num := by omega
  rw [hn] at hlist
  have hlen : (drawn_vals w num).length = num := drawn_vals_length w num
  have hne : drawn_vals w num ≠ [] := List.ne_nil_of_length_pos (by rw [hlen]; omega)
  have hvb := drawn_vals_bounds w num hr
  have hsum := sum_bounds _ hvb
  have hrs := running_sums_bounds _ hvb 0
  rw [hlen] at hsum hrs
  have hnI : ((num : Nat) : Int) ≤ 19 := by exact_mod_cast h19
  have hfits : ∀ x ∈ running_sums 0 (drawn_vals w num), in_signed_range T.long_bits x := by
    intro x hx
    have := hrs x hx
    exact in_long_range_of_small T x (by omega) (by omega)
  refine ⟨drawn_vals w num, hlist, hlen, ?_, ?_, ?_, ?_, by omega, by omega⟩
  · exact calc_total_steps_exact T w2.heap _ fuel _ 0 hlist hne (by rw [hlen]; exact hf) hfits
  · intro t ht
    have := hrs t ht
    refine ⟨by omega, by omega, by omega, ?_⟩
    unfold in_signed_range
    norm_num
    constructor <;> omega
  · rw [calc_total_spec T fuel w2.heap _ _ 0 hlist (by rw [hlen]; exact hf), if_neg hne,
      Int.zero_add]
    rw [wrap_signed_of_range _ _ (in_long_range_of_small T _ (by omega) (by omega))]
  · rw [running_sums_getLast? _ hne 0, Int.zero_add]

/-- Witness of C16: three nodes built at the start of a process and summed
on the target with a 32-bit `long int`. -/
theorem calc_total_never_overflows_witness :
    ∃ first w',
      build_list 3 (some NULL)
          (World.init (fun _ => MallocResult.block ⟨0, 0⟩ none) (fun i => 7 * (i : Int) + 3))
        = Outcome.ok (SUCCESS, some first, w') ∧
      ∃ vals, isList w'.heap first vals ∧ vals.length = 3 ∧
        calc_total_steps ILP32 w'.heap 3 first 0 = Outcome.ok (running_sums 0 vals) ∧
        (∀ t ∈ running_sums 0 vals,
          0 ≤ t ∧ t ≤ 50 * ((3 : Nat) : Int) ∧ t ≤ 950 ∧ in_signed_range 32 t) ∧
        calc_total ILP32 3 w'.heap first 0 = Outcome.ok (SUCCESS, vals.sum) ∧
        (running_sums 0 vals).getLast? = some vals.sum ∧
        ((3 : Nat) : Int) ≤ vals.sum ∧ vals.sum ≤ 950 :=
  (build_list_all_blocks 3 NULL
      (World.init (fun _ => MallocResult.block ⟨0, 0⟩ none) (fun i => 7 * (i : Int) + 3))
      (by decide) rfl (fun _ _ => rfl)).elim
    fun w' hw =>
      ⟨_, w', hw.1,
        calc_total_never_overflows ILP32 3 3 NULL _
          (World.init (fun _ => MallocResult.block ⟨0, 0⟩ none) (fun i => 7 * (i : Int) + 3)) w'
          (by decide) (by decide)
          (fun i => by show (0 : Int) ≤ 7 * (i : Int) + 3; omega) hw.1 (by decide)⟩

/-! ## The teardown loop, node by node -/

theorem list_addrs_cons (h : Heap) (p : Ptr) (c : value_t) (n : Nat)
    (hc : deref h p = some c) :
    list_addrs h p (n + 1) = p :: list_addrs h c.next n := by
  rw [list_addrs, hc]

theorem list_addrs_length {h : Heap} {vals : List Int} :
    ∀ {p : Ptr}, isList h p vals → (list_addrs h p vals.length).length = vals.length := by
  induction vals with
  | nil => intro _ _; rfl
  | cons v vs ih =>
    intro p hl
    obtain ⟨c, hc, _, ht⟩ := (isList_cons h p v vs).1 hl
    rw [List.length_cons, list_addrs_cons h p c _ hc, List.length_cons, ih ht]

/-- Every address among the nodes of a list is the start of a non-empty list
that is not longer. -/
theorem isList_of_mem_list_addrs {h : Heap} {vals : List Int} :
    ∀ {p : Ptr}, isList h p vals → ∀ a ∈ list_addrs h p vals.length,
      ∃ s : List Int, s.length ≤ vals.length ∧ isList h a s := by
  induction vals with
  | nil => intro _ _ a ha; simp [list_addrs] at ha
  | cons v vs ih =>
    intro p hl a ha
    obtain ⟨c, hc, _, ht⟩ := (isList_cons h p v vs).1 hl
    rw [List.length_cons, list_addrs_cons h p c _ hc, List.mem_cons] at ha
    rcases ha with rfl | ha
    · exact ⟨v :: vs, le_refl _, hl⟩
    · obtain ⟨s, hs, hsl⟩ := ih ht a ha
      exact ⟨s, by simp; omega, hsl⟩

/-- The head of a list is not among the nodes of its tail. -/
theorem head_not_mem_tail_addrs {h : Heap} {p : Ptr} {v : Int} {vs : List Int} {c : value_t}
    (hl : isList h p (v :: vs)) (ht : isList h c.next vs) :
    p ∉ list_addrs h c.next vs.length := by
  intro hmem
  obtain ⟨s, hs, hsl⟩ := isList_of_mem_list_addrs ht p hmem
  have := isList_unique hsl hl
  rw [this] at hs
  simp at hs

/-- The nodes of a list are pairwise distinct. -/
theorem list_addrs_nodup {h : Heap} {vals : List Int} :
    ∀ {p : Ptr}, isList h p vals → (list_addrs h p vals.length).Nodup := by
  induction vals with
  | nil => intro _ _; exact List.nodup_nil
  | cons v vs ih =>
    intro p hl
    obtain ⟨c, hc, _, ht⟩ := (isList_cons h p v vs).1 hl
    rw [List.length_cons, list_addrs_cons h p c _ hc]
    exact List.nodup_cons.2 ⟨head_not_mem_tail_addrs hl ht, ih ht⟩

/-- Changing a cell that no list of length at most that of `vals` starts at
leaves the addresses of the nodes of the list `vals` at `q` alone. -/
theorem list_addrs_set_of_no_short {h : Heap} {p : Ptr} {c : Option value_t}
    {vals : List Int} :
    ∀ {q : Ptr}, isList h q vals →
      (∀ s : List Int, s.length ≤ vals.length → ¬ isList h p s) →
      list_addrs (h.set p c) q vals.length = list_addrs h q vals.length := by
  induction vals with
  | nil => intro _ _ _; rfl
  | cons v vs ih =>
    intro q hl hp
    obtain ⟨d, hd, _, ht⟩ := (isList_cons h q v vs).1 hl
    have hqp : q ≠ p := by
      rintro rfl
      exact hp (v :: vs) (le_refl _) hl
    have hq0 := (deref_eq_some hd).1
    have hd2 : deref (h.set p c) q = some d := by
      rw [deref_of_ne_null hq0, Heap.set_other _ _ hqp]
      exact (deref_eq_some hd).2
    rw [List.length_cons, list_addrs_cons _ q d _ hd2, list_addrs_cons h q d _ hd,
      ih ht (fun s hs => hp s (by simp at hs ⊢; omega))]

/-- The teardown loop on a non-empty list, in full: it ends, the calls of
`free` it makes are the nodes of the list in list order, the nodes are gone
from the heap and every other cell is as it was. -/
theorem free_loop_frees_nodes (vals : List Int) :
    ∀ (fuel : Nat) (p : Ptr) (w : World), isList w.heap p vals → vals ≠ [] →
      vals.length ≤ fuel →
      ∃ w', free_loop fuel p w = Outcome.ok w' ∧
        w'.frees = w.frees ++ list_addrs w.heap p vals.length ∧
        (∀ q, q ∈ list_addrs w.heap p vals.length → w'.heap q = none) ∧
        (∀ q, q ∉ list_addrs w.heap p vals.length → w'.heap q = w.heap q) ∧
        w'.out = w.out := by
  induction vals with
  | nil => intro _ _ _ _ hne; exact absurd rfl hne
  | cons v vs ih =>
    intro fuel p w hl _ hf
    obtain ⟨c, hc, hv, ht⟩ := (isList_cons w.heap p v vs).1 hl
    have hp := deref_eq_some hc
    obtain ⟨f, rfl⟩ : ∃ f, fuel = f + 1 := ⟨fuel - 1, by simp at hf; omega⟩
    rw [List.length_cons, list_addrs_cons w.heap p c _ hc]
    unfold free_loop
    simp only [hc]
    cases vs with
    | nil =>
      have hnext : c.next = NULL := (isList_nil _ _).1 ht
      rw [if_neg (by simp [hnext]), free_of_allocated w p c hp.1 hp.2]
      refine ⟨_, rfl, rfl, ?_, ?_, rfl⟩
      · intro q hq
        simp only [List.length_nil, list_addrs, List.mem_singleton] at hq
        rw [hq]
        exact Heap.set_same _ _ _
      · intro q hq
        simp only [List.length_nil, list_addrs, List.mem_singleton] at hq
        exact Heap.set_other _ _ hq
    | cons v2 vs2 =>
      have hn : c.next ≠ NULL := isList_ne_null ht (by simp)
      have hshort : ∀ s : List Int, s.length ≤ (v2 :: vs2).length → ¬ isList w.heap p s := by
        intro s hs hps
        have := isList_unique hps hl
        rw [this] at hs
        simp at hs
      have hnot : p ∉ list_addrs w.heap c.next (v2 :: vs2).length :=
        head_not_mem_tail_addrs hl ht
      rw [if_pos hn, free_of_allocated w p c hp.1 hp.2, Outcome.bind_ok]
      obtain ⟨w', hrun, hfrees, hgone, hkept, hout⟩ :=
        ih f c.next { w with heap := w.heap.set p none, frees := w.frees ++ [p] }
          (isList_tail_set_head hl ht none) (by simp) (by simp at hf ⊢; omega)
      have haddrs : list_addrs (w.heap.set p none) c.next (v2 :: vs2).length
          = list_addrs w.heap c.next (v2 :: vs2).length :=
        list_addrs_set_of_no_short ht hshort
      simp only [haddrs] at hfrees hgone hkept
      refine ⟨w', hrun, ?_, ?_, ?_, hout⟩
      · rw [hfrees, List.append_assoc]
        rfl
      · intro q hq
        rcases List.mem_cons.1 hq with rfl | hq
        · rw [hkept q hnot]
          exact Heap.set_same _ _ _
        · exact hgone q hq
      · intro q hq
        have hq1 : q ≠ p := fun e => hq (by rw [e]; exact List.mem_cons_self _ _)
        have hq2 : q ∉ list_addrs w.heap c.next (v2 :: vs2).length :=
          fun e => hq (List.mem_cons_of_mem _ e)
        rw [hkept q hq2]
        exact Heap.set_other _ _ hq1

/-- C17: for every non-empty null-terminated list of `n` nodes the teardown
loop of `main` ends without a fault, so without reading or freeing a cell
that is no longer allocated; it calls `free` exactly `n` times, on the nodes
of the list in list order, each node once, and leaves none of them
allocated. -/
theorem free_loop_releases_once (fuel : Nat) (p : Ptr) (w : World) (vals : List Int)
    (hl : isList w.heap p vals) (hne : vals ≠ []) (hf : vals.length ≤ fuel) :
    ∃ w', free_loop fuel p w = Outcome.ok w' ∧
      w'.frees = w.frees ++ list_addrs w.heap p vals.length ∧
      (list_addrs w.heap p vals.length).length = vals.length ∧
      (list_addrs w.heap p vals.length).Nodup ∧
      (∀ q, q ∈ list_addrs w.heap p vals.length → w'.heap q = none) := by
  obtain ⟨w', hrun, hfrees, hgone, _, _⟩ := free_loop_frees_nodes vals fuel p w hl hne hf
  exact ⟨w', hrun, hfrees, list_addrs_length hl, list_addrs_nodup hl, hgone⟩

/-- Witness of C17: the list `[3, 10, 7]` at the addresses 1, 2, 3. -/
theorem free_loop_releases_once_witness :
    ∃ w', free_loop 3 1 (World.of_list [3, 10, 7]) = Outcome.ok w' ∧
      w'.frees = (World.of_list [3, 10, 7]).frees
        ++ list_addrs (World.of_list [3, 10, 7]).heap 1 ([3, 10, 7] : List Int).length ∧
      (list_addrs (World.of_list [3, 10, 7]).heap 1 ([3, 10, 7] : List Int).length).length
        = ([3, 10, 7] : List Int).length ∧
      (list_addrs (World.of_list [3, 10, 7]).heap 1 ([3, 10, 7] : List Int).length).Nodup ∧
      (∀ q, q ∈ list_addrs (World.of_list [3, 10, 7]).heap 1 ([3, 10, 7] : List Int).length →
        w'.heap q = none) :=
  free_loop_releases_once 3 1 (World.of_list [3, 10, 7]) [3, 10, 7]
    (by decide) (by decide) (by decide)

/-! ## The text of the lines of `print_list` -/

theorem fmt_d_two_wide_fin :
    ∀ n : Fin 100, fmt_d 2 ((n.val : Nat) : Int) = two_wide n.val := by
  decide

/-- The conversion `%2d` of a number from 0 to 99 is its two-character form. -/
theorem fmt_d_two_wide (x : Int) (h0 : 0 ≤ x) (h99 : x ≤ 99) :
    fmt_d 2 x = two_wide x.toNat := by
  have hlt : x.toNat < 100 := by omega
  have := fmt_d_two_wide_fin ⟨x.toNat, hlt⟩
  simp only [Int.toNat_of_nonneg h0] at this
  exact this

theorem two_wide_length (x : Nat) : (two_wide x).length = 2 := rfl

/-- The lines `print_list` prints for a list whose length fits `int`, as one
list appended to the output. -/
theorem print_list_out (T : Target) (fuel : Nat) (w : World) (start : Ptr)
    (vals : List Int) (hl : isList w.heap start vals) (hne : vals ≠ [])
    (hf : vals.length ≤ fuel) (hn : in_signed_range T.int_bits vals.length) :
    print_list T fuel w start
      = Outcome.ok (SUCCESS, { w with out := w.out ++ number_lines 1 vals }) := by
  have h1 : in_signed_range T.int_bits 1 :=
    in_int_range_of_small T 1 (by norm_num) (by norm_num)
  have hlast : in_signed_range T.int_bits (1 + (vals.length : Int) - 1) := by
    have : (1 : Int) + (vals.length : Int) - 1 = vals.length := by ring
    rw [this]; exact hn
  rw [print_list_spec T fuel w start vals hl hf, if_neg hne,
    counted_lines_eq_number_lines T vals 1 h1 hlast]

/-- C13: for every position `p` in `[1, 19]` and value `v` in `[1, 50]`, the
line `print_list` prints for a `p`-th element `v` is the call with the label
`p` and the value `v`, whose text is `Number NN = VV` and a newline, `NN`
and `VV` being `p` and `v` right-justified on two characters; the text
before the newline is 14 characters long. -/
theorem print_list_line_text (T : Target) (fuel : Nat) (w : World) (start : Ptr)
    (vals : List Int) (p : Nat) (v : Int) (hl : isList w.heap start vals)
    (hf : vals.length ≤ fuel) (hp1 : 1 ≤ p) (hp19 : p ≤ 19)
    (hv : vals[p - 1]? = some v) (hv1 : 1 ≤ v) (hv50 : v ≤ 50) :
    ∃ w', print_list T fuel w start = Outcome.ok (SUCCESS, w') ∧
      w'.out[w.out.length + (p - 1)]? = some (Out.number_line p v) ∧
      number_line_text p v
        = "Number " ++ two_wide p ++ " = " ++ two_wide v.toNat ++ "\n" ∧
      ("Number " ++ two_wide p ++ " = " ++ two_wide v.toNat).length = 14 := by
  obtain ⟨hi, hvi⟩ := List.getElem?_eq_some_iff.1 hv
  have hne : vals ≠ [] := List.ne_nil_of_length_pos (by omega)
  have hpI : ((p : Nat) : Int) ≤ 19 := by exact_mod_cast hp19
  have hp0 : (1 : Int) ≤ ((p : Nat) : Int) := by exact_mod_cast hp1
  refine ⟨{ w with out := w.out ++ counted_lines T 1 vals }, ?_, ?_, ?_, ?_⟩
  · rw [print_list_spec T fuel w start vals hl hf, if_neg hne]
  · show (w.out ++ counted_lines T 1 vals)[w.out.length + (p - 1)]? = _
    rw [List.getElem?_append_right (Nat.le_add_right _ _), Nat.add_sub_cancel_left,
      counted_lines_getElem? T vals 1 (p - 1) hi
        (in_int_range_of_small T 1 (by norm_num) (by norm_num)), hvi]
    have hcast : (1 : Int) + ((p - 1 : Nat) : Int) = p := by omega
    rw [hcast, wrap_signed_of_range _ _ (in_int_range_of_small T _ (by omega) (by omega))]
  · unfold number_line_text
    rw [fmt_d_two_wide p (by omega) (by omega), fmt_d_two_wide v (by omega) (by omega),
      Int.toNat_ofNat]
  · simp only [String.length_append, two_wide_length]
    rfl

/-- Witness of C13: the second line of the list `[3, 10, 7]`. -/
theorem print_list_line_text_witness :
    ∃ w', print_list LP64 3 (World.of_list [3, 10, 7]) 1 = Outcome.ok (SUCCESS, w') ∧
      w'.out[(World.of_list [3, 10, 7]).out.length + (2 - 1)]?
        = some (Out.number_line ((2 : Nat) : Int) 10) ∧
      number_line_text ((2 : Nat) : Int) 10
        = "Number " ++ two_wide 2 ++ " = " ++ two_wide (10 : Int).toNat ++ "\n" ∧
      ("Number " ++ two_wide 2 ++ " = " ++ two_wide (10 : Int).toNat).length = 14 :=
  print_list_line_text LP64 3 (World.of_list [3, 10, 7]) 1 [3, 10, 7] 2 10
    (by decide) (by decide) (by decide) (by decide) (by decide) (by decide) (by decide)

/-- C14 fails as stated: for the list `[3, 10, 7]` `print_list` prints the
calls with the labels 1, 2, 3 and the values 3, 10, 7, and their texts are
not `Number 1 = 3`, `Number 2 = 10`, `Number 3 = 7`: the first is
`Number  1 =  3`, label and value padded to two characters. -/
theorem print_list_lines_not_unpadded :
    (∃ w', print_list LP64 3 (World.of_list [3, 10, 7]) 1 = Outcome.ok (SUCCESS, w') ∧
      w'.out = [Out.number_line 1 3, Out.number_line 2 10, Out.number_line 3 7]) ∧
    [number_line_text 1 3, number_line_text 2 10, number_line_text 3 7]
      ≠ ["Number 1 = 3" ++ "\n", "Number 2 = 10" ++ "\n", "Number 3 = 7" ++ "\n"] ∧
    number_line_text 1 3 = "Number  1 =  3" ++ "\n" := by
  refine ⟨⟨_, print_list_out LP64 3 (World.of_list [3, 10, 7]) 1 [3, 10, 7]
    (by decide) (by decide) (by decide) (by decide), rfl⟩, by decide, by decide⟩

/-- C14, amended: for the list `[3, 10, 7]` `print_list` returns `SUCCESS`
and prints three lines, in this order, whose texts are exactly
`Number  1 =  3`, `Number  2 = 10` and `Number  3 =  7`, each followed by a
newline: label and value are right-justified on two characters. -/
theorem print_list_three_lines (T : Target) (fuel : Nat) (w : World) (start : Ptr)
    (hl : isList w.heap start [3, 10, 7]) (hf : 3 ≤ fuel) :
    print_list T fuel w start
      = Outcome.ok (SUCCESS,
          { w with out := w.out
              ++ [Out.number_line 1 3, Out.number_line 2 10, Out.number_line 3 7] }) ∧
    [number_line_text 1 3, number_line_text 2 10, number_line_text 3 7]
      = ["Number  1 =  3" ++ "\n", "Number  2 = 10" ++ "\n", "Number  3 =  7" ++ "\n"] := by
  refine ⟨?_, by decide⟩
  rw [print_list_out T fuel w start [3, 10, 7] hl (by decide) hf
    (in_int_range_of_small T _ (by norm_num) (by norm_num))]
  rfl

/-- Witness of C14 amended: the list at the addresses 1, 2, 3 of a heap. -/
theorem print_list_three_lines_witness :
    print_list LP64 3 (World.of_list [3, 10, 7]) 1
      = Outcome.ok (SUCCESS,
          { World.of_list [3, 10, 7] with
            out := (World.of_list [3, 10, 7]).out
              ++ [Out.number_line 1 3, Out.number_line 2 10, Out.number_line 3 7] }) ∧
    [number_line_text 1 3, number_line_text 2 10, number_line_text 3 7]
      = ["Number  1 =  3" ++ "\n", "Number  2 = 10" ++ "\n", "Number  3 =  7" ++ "\n"] :=
  print_list_three_lines LP64 3 (World.of_list [3, 10, 7]) 1 (by decide) (by decide)

end Randadd1
